import Mathlib

/-!
# webcam-stream: the shared resource manager

A shallow embedding of `include/gh/owner_ptr.hpp` and
`include/gh/resource_manager.hpp`, and theorems about it.

Modelling conventions.

* The C++ `int` fields `m_max_shared` and `m_shared` are `Int`; no wrap-around
  is modelled (signed overflow is undefined in C++, and in every run the counts
  are bounded by the number of calls made).
* `std::unique_ptr<T> m_ptr` is an `Option T`: `none` is the null pointer,
  `some t` a live object whose current value is `t`.
* Every member function of `resource_manager` takes the mutex for its whole
  body, so a concurrent execution is a serialised sequence of calls; a call is a
  function from the state before to the state after, together with what it
  returns.  A `bool& me_owner` parameter is passed in and handed back.
* `new T(args...)` is represented by its outcome `obj : Option T` (`none`: the
  constructor throws).  The outcome is only consulted on the path on which the
  source evaluates the `new` expression.
* Dereferencing a null `m_ptr` has no defined behaviour; the calls that do so
  return `none`.
-/

namespace gh

/-- The capability the manager needs from the managed type `T`: the no-argument
`update()` member called through `m_ptr->update()`. -/
class Managed (T : Type) where
  update : T → T

/-! ## `owner_ptr` -/

/-- The data members of `owner_ptr<T>`. -/
structure owner_ptr (T : Type) where
  m_max_shared : Int
  m_shared : Int
  m_owned : Bool
  m_ptr : Option T

variable {T : Type}

/-- The constructors `owner_ptr()` and `owner_ptr(std::nullptr_t)`. -/
def owner_ptr.null : owner_ptr T :=
  { m_max_shared := -1, m_shared := 0, m_owned := false, m_ptr := none }

/-- The constructor `explicit owner_ptr(pointer p)`. -/
def owner_ptr.of_pointer (p : T) : owner_ptr T :=
  { m_max_shared := -1, m_shared := 1, m_owned := true, m_ptr := some p }

/-- The conversion `explicit operator bool()`. -/
def owner_ptr.to_bool (o : owner_ptr T) : Bool :=
  o.m_ptr.isSome

/-- The member `set_max_shared(int n)`. -/
def owner_ptr.set_max_shared (o : owner_ptr T) (n : Int) : owner_ptr T :=
  { o with m_max_shared := n }

/-- The member `use()`: `++m_shared`. -/
def owner_ptr.use (o : owner_ptr T) : owner_ptr T :=
  { o with m_shared := o.m_shared + 1 }

/-- The member `last()`. -/
def owner_ptr.last (o : owner_ptr T) : Bool :=
  decide (o.m_shared = 1)

/-- The member `release()`: `--m_shared`, then hand out the pointer (leaving
`m_ptr` null) when the count is zero, and `nullptr` otherwise. -/
def owner_ptr.release (o : owner_ptr T) : owner_ptr T × Option T :=
  let o1 : owner_ptr T := { o with m_shared := o.m_shared - 1 }
  if o1.m_shared = 0 then ({ o1 with m_ptr := none }, o1.m_ptr) else (o1, none)

/-- The member `reset()`. -/
def owner_ptr.reset (o : owner_ptr T) : owner_ptr T :=
  { o with m_owned := false }

/-- The member `reached()`. -/
def owner_ptr.reached (o : owner_ptr T) : Bool :=
  if o.m_max_shared ≤ 0 then false else decide (o.m_shared ≥ o.m_max_shared)

/-- The member `try_own()`. -/
def owner_ptr.try_own (o : owner_ptr T) : owner_ptr T × Bool :=
  if o.m_owned then (o, false) else ({ o with m_owned := true }, true)

/-- The friend `swap(a, b)`: all four members are exchanged. -/
def owner_ptr.swap (a b : owner_ptr T) : owner_ptr T × owner_ptr T :=
  (b, a)

/-- The move assignment `operator=(owner_ptr&& other)`: a swap.  The first
component is `*this` afterwards, the second is `other`, whose destructor then
disposes of whatever `*this` held. -/
def owner_ptr.move_assign (self other : owner_ptr T) : owner_ptr T × owner_ptr T :=
  owner_ptr.swap self other

/-- The free function `make_owner<T>(args...)`, given the object that
`new T(args...)` produced. -/
def make_owner (p : T) : owner_ptr T :=
  owner_ptr.of_pointer p

/-! ## `resource_manager` -/

/-- The data members of `resource_manager<T>` (the mutex apart). -/
structure resource_manager (T : Type) where
  m_max_shared : Int
  m_ptr : owner_ptr T
  m_callback : Option (owner_ptr T → owner_ptr T)

/-- The default constructor `resource_manager()`. -/
def resource_manager.init : resource_manager T :=
  { m_max_shared := -1, m_ptr := owner_ptr.null, m_callback := none }

/-- The conversion `explicit operator bool()`. -/
def resource_manager.to_bool (m : resource_manager T) : Bool :=
  m.m_ptr.to_bool

/-- The member `set_max_shared(int n)`. -/
def resource_manager.set_max_shared (m : resource_manager T) (n : Int) : resource_manager T :=
  { m with m_max_shared := n }

/-- The member `set_post_make_action(callback)`. -/
def resource_manager.set_post_make_action (m : resource_manager T)
    (callback : owner_ptr T → owner_ptr T) : resource_manager T :=
  { m with m_callback := some callback }

/-- What a `void` member that may throw leaves behind: the manager, the object
destroyed during the call (when there is one), and whether the call returned
normally (`false`: an exception left the call). -/
structure void_call (T : Type) where
  mgr : resource_manager T
  destroyed : Option T
  returned : Bool

/-- The member `make_without_lock(args...)`.  When `new T` throws nothing has
been assigned yet.  Otherwise the fresh `owner_ptr` is move-assigned into
`m_ptr` (the temporary takes what `m_ptr` held and destroys it at the end of the
statement), the configured capacity is copied into it and the callback, when
set, runs on it. -/
def resource_manager.make_without_lock (m : resource_manager T) (obj : Option T) : void_call T :=
  match obj with
  | none => { mgr := m, destroyed := none, returned := false }
  | some p =>
    let a := owner_ptr.move_assign m.m_ptr (make_owner p)
    let p2 := a.1.set_max_shared m.m_max_shared
    let p3 := match m.m_callback with
      | some callback => callback p2
      | none => p2
    { mgr := { m with m_ptr := p3 }, destroyed := a.2.m_ptr, returned := true }

/-- The member `make(args...)`. -/
def resource_manager.make (m : resource_manager T) (obj : Option T) : void_call T :=
  m.make_without_lock obj

/-- What `make_or_reuse` leaves behind: the manager, the caller's `me_owner`,
and the returned `int` (`none`: an exception left the call). -/
structure acquire_call (T : Type) where
  mgr : resource_manager T
  me_owner : Bool
  value : Option Int

/-- The member `make_or_reuse(bool& me_owner, args...)`. -/
def resource_manager.make_or_reuse (m : resource_manager T) (me_owner : Bool) (obj : Option T) :
    acquire_call T :=
  if m.m_ptr.to_bool then
    let m1 : resource_manager T := { m with m_ptr := m.m_ptr.use }
    { mgr := m1, me_owner := me_owner,
      value := some (if m1.m_ptr.reached then 0 else (if me_owner then 1 else 2)) }
  else
    let r := m.make_without_lock obj
    if r.returned then
      let me_owner1 := true
      { mgr := r.mgr, me_owner := me_owner1,
        value := some (if r.mgr.m_ptr.reached then 0 else (if me_owner1 then 1 else 2)) }
    else
      { mgr := r.mgr, me_owner := me_owner, value := none }

/-- The member `make_and_keep(args...)`: when `make` throws, the decrement is
not executed. -/
def resource_manager.make_and_keep (m : resource_manager T) (obj : Option T) : void_call T :=
  let m1 : resource_manager T := { m with m_max_shared := m.m_max_shared + 1 }
  let r := m1.make obj
  if r.returned then
    { mgr := { r.mgr with m_max_shared := r.mgr.m_max_shared - 1 }, destroyed := r.destroyed,
      returned := true }
  else
    r

/-- The member `update(bool& me_owner)`: the manager and `me_owner` afterwards;
`none` when `m_ptr->update()` is reached with a null `m_ptr`. -/
def resource_manager.update [Managed T] (m : resource_manager T) (me_owner : Bool) :
    Option (resource_manager T × Bool) :=
  let t := m.m_ptr.try_own
  let me_owner := if t.2 then true else me_owner
  if me_owner then
    match t.1.m_ptr with
    | some r => some ({ m with m_ptr := { t.1 with m_ptr := some (Managed.update r) } }, me_owner)
    | none => none
  else
    some ({ m with m_ptr := t.1 }, me_owner)

/-- The member `update()` without arguments. -/
def resource_manager.update_all [Managed T] (m : resource_manager T) : Option (resource_manager T) :=
  match m.m_ptr.m_ptr with
  | some r => some { m with m_ptr := { m.m_ptr with m_ptr := some (Managed.update r) } }
  | none => none

/-- The member `last()`. -/
def resource_manager.last (m : resource_manager T) : Bool :=
  m.m_ptr.last

/-- What `release(bool&)` leaves behind: the manager, the object passed to
`delete` (when there is one) and the returned `int`. -/
structure release_call (T : Type) where
  mgr : resource_manager T
  deleted : Option T
  value : Int

/-- The member `release(bool& me_owner)`. -/
def resource_manager.release (m : resource_manager T) (me_owner : Bool) : release_call T :=
  let p0 := if me_owner then m.m_ptr.reset else m.m_ptr
  let r := p0.release
  match r.2 with
  | some p => { mgr := { m with m_ptr := r.1 }, deleted := some p, value := 1 }
  | none => { mgr := { m with m_ptr := r.1 }, deleted := none, value := 0 }

/-- The member `release()` without arguments: the pointer is handed to the
caller, nothing is deleted here. -/
def resource_manager.release_pointer (m : resource_manager T) : resource_manager T × Option T :=
  let r := m.m_ptr.release
  ({ m with m_ptr := r.1 }, r.2)

/-! ## Callers -/

/-- One call made by a request handler `c` (as the `/cam` handler of `main.cpp`
does): `make_or_reuse(me_owner, args)` with a fresh `me_owner = false`,
`update(me_owner)` and `release(me_owner)` with the handler's own flag. -/
inductive call (T : Type) where
  | acquire (c : Nat) (obj : Option T)
  | refresh (c : Nat)
  | release (c : Nat)

/-- A manager together with the handlers that are between their
`make_or_reuse` and their `release`, each with its local `me_owner`. -/
structure system (T : Type) where
  mgr : resource_manager T
  holders : List (Nat × Bool)

/-- The manager of `main.cpp` before any request: default constructed, then
`set_max_shared(capacity)` and, possibly, `set_post_make_action(callback)`. -/
def resource_manager.configured (capacity : Int) (callback : Option (owner_ptr T → owner_ptr T)) :
    resource_manager T :=
  { (resource_manager.init.set_max_shared capacity) with m_callback := callback }

/-- The system before any request. -/
def system.start (capacity : Int) (callback : Option (owner_ptr T → owner_ptr T)) : system T :=
  { mgr := resource_manager.configured capacity callback, holders := [] }

/-- The `me_owner` of handler `c`, when `c` is among the holders. -/
def flag_of (c : Nat) : List (Nat × Bool) → Option Bool
  | [] => none
  | h :: hs => if h.1 = c then some h.2 else flag_of c hs

/-- Replace the flag of handler `c`. -/
def set_flag (c : Nat) (f : Bool) : List (Nat × Bool) → List (Nat × Bool)
  | [] => []
  | h :: hs => if h.1 = c then (c, f) :: hs else h :: set_flag c f hs

/-- Remove handler `c`. -/
def drop_holder (c : Nat) : List (Nat × Bool) → List (Nat × Bool)
  | [] => []
  | h :: hs => if h.1 = c then hs else h :: drop_holder c hs

/-- One serialised call.  The result is `none` when the call is not one a
handler makes (acquiring while it still holds, refreshing or releasing what it
does not hold) or when it has no defined behaviour; otherwise the system
afterwards and the returned `int`, if the call returns one. -/
def system.step [Managed T] (s : system T) : call T → Option (system T × Option Int)
  | call.acquire c obj =>
    match flag_of c s.holders with
    | some _ => none
    | none =>
      let r := s.mgr.make_or_reuse false obj
      match r.value with
      | some v => some ({ mgr := r.mgr, holders := (c, r.me_owner) :: s.holders }, some v)
      | none => some ({ mgr := r.mgr, holders := s.holders }, none)
  | call.refresh c =>
    match flag_of c s.holders with
    | none => none
    | some f =>
      match s.mgr.update f with
      | none => none
      | some (m, f1) => some ({ mgr := m, holders := set_flag c f1 s.holders }, none)
  | call.release c =>
    match flag_of c s.holders with
    | none => none
    | some f =>
      let r := s.mgr.release f
      some ({ mgr := r.mgr, holders := drop_holder c s.holders }, some r.value)

/-- A sequence of serialised calls: the system afterwards and what each call
returned, in order. -/
def system.run [Managed T] (s : system T) : List (call T) → Option (system T × List (Option Int))
  | [] => some (s, [])
  | c :: cs =>
    match s.step c with
    | none => none
    | some (s1, out) =>
      match system.run s1 cs with
      | none => none
      | some (s2, outs) => some (s2, out :: outs)

/-- The number of handlers whose `me_owner` is set. -/
def system.owners (s : system T) : Nat :=
  s.holders.countP (fun h => h.2)

/-- A post-make callback that only wires the managed object (as the
`cam->install(d)` of `main.cpp`): it leaves the counters, the ownership flag and
the presence of the object as they are. -/
def wiring_only (callback : owner_ptr T → owner_ptr T) : Prop :=
  ∀ p, (callback p).m_max_shared = p.m_max_shared ∧ (callback p).m_shared = p.m_shared ∧
    (callback p).m_owned = p.m_owned ∧ (callback p).m_ptr.isSome = p.m_ptr.isSome

/-- The configured callback, when there is one, only wires the object. -/
def hook_wires_only (callback : Option (owner_ptr T → owner_ptr T)) : Prop :=
  ∀ f, callback = some f → wiring_only f

/-- The streaming loop of the `/cam` handler, as far as the manager sees it:
`update(me_owner)` called `n` times in a row by one handler. -/
def resource_manager.refresh_loop [Managed T] (m : resource_manager T) (me_owner : Bool) :
    Nat → Option (resource_manager T × Bool)
  | 0 => some (m, me_owner)
  | n + 1 =>
    match m.update me_owner with
    | none => none
    | some (m1, f1) => resource_manager.refresh_loop m1 f1 n

/-- The manager with the managed object replaced by `t` (same pointer, new
value): what calls of `T::update()` change. -/
def resource_manager.with_object (m : resource_manager T) (t : T) : resource_manager T :=
  { m with m_ptr := { m.m_ptr with m_ptr := some t } }

/-- Handler X calls `make_or_reuse` on the configured manager, with `x` the
object its `new T` yields. -/
def x_creates (capacity : Int) (callback : Option (owner_ptr T → owner_ptr T)) (x : T) :
    acquire_call T :=
  (resource_manager.configured capacity callback).make_or_reuse false (some x)

/-- Then handler Y calls `make_or_reuse`. -/
def y_joins (capacity : Int) (callback : Option (owner_ptr T → owner_ptr T)) (x : T)
    (obj : Option T) : acquire_call T :=
  (x_creates capacity callback x).mgr.make_or_reuse false obj

/-- What ties the slot to the handlers in a run that starts from the manager
configured with `capacity`: `m_shared` counts the holders, the object is present
exactly while there is a holder, an active slot carries the configured capacity,
and at most one holder has `me_owner` set, in which case `m_owned` is set. -/
structure system.consistent (capacity : Int) (s : system T) : Prop where
  capacity_eq : s.mgr.m_max_shared = capacity
  hook : hook_wires_only s.mgr.m_callback
  slot_capacity : s.mgr.to_bool = true → s.mgr.m_ptr.m_max_shared = capacity
  count : s.mgr.m_ptr.m_shared = s.holders.length
  active : s.mgr.to_bool = true ↔ s.holders ≠ []
  one_owner : s.owners ≤ 1
  owned : 0 < s.owners → s.mgr.m_ptr.m_owned = true

/-! ## A managed type for concrete runs -/

/-- A stand-in for `gh::webcam`: the constructor argument, how often `update()`
ran, and whether a detector was installed. -/
structure camera where
  index : Nat
  frames : Nat
  installed : Bool
  deriving DecidableEq, Repr

instance : Managed camera where
  update := fun c => { c with frames := c.frames + 1 }

/-- What `new webcam(index)` yields. -/
def camera.open (index : Nat) : camera :=
  { index := index, frames := 0, installed := false }

/-- The callback of `main.cpp`: `cam->install(d)`. -/
def install_detector (p : owner_ptr camera) : owner_ptr camera :=
  { p with m_ptr := p.m_ptr.map (fun c => { c with installed := true }) }

/-! ## Concrete scenarios -/

/-- Capacity 1, no callback: handler X calls `make_or_reuse`. -/
def scenarioA_x : acquire_call camera :=
  (resource_manager.configured 1 none).make_or_reuse false (some (camera.open 0))

/-- Capacity 1: then handler Y calls `make_or_reuse`. -/
def scenarioA_y : acquire_call camera :=
  scenarioA_x.mgr.make_or_reuse false (some (camera.open 0))

/-- Capacity 1: then X calls `release` with its flag. -/
def scenarioA_x_release : release_call camera :=
  scenarioA_y.mgr.release scenarioA_x.me_owner

/-- Capacity 1: then Y calls `make_or_reuse` again. -/
def scenarioA_y_retry : acquire_call camera :=
  scenarioA_x_release.mgr.make_or_reuse false (some (camera.open 0))

/-- Capacity 2, no callback: handler X calls `make_or_reuse`. -/
def scenarioA2_x : acquire_call camera :=
  (resource_manager.configured 2 none).make_or_reuse false (some (camera.open 0))

/-- Capacity 2: then handler Y calls `make_or_reuse`. -/
def scenarioA2_y : acquire_call camera :=
  scenarioA2_x.mgr.make_or_reuse false (some (camera.open 0))

/-- Capacity 2: Y, turned away, calls `release` with its flag. -/
def scenarioA2_y_release : release_call camera :=
  scenarioA2_y.mgr.release scenarioA2_y.me_owner

/-- Capacity 2: then X calls `release` with its flag. -/
def scenarioA2_x_release : release_call camera :=
  scenarioA2_y_release.mgr.release scenarioA2_x.me_owner

/-- Capacity 2: then Y calls `make_or_reuse` again. -/
def scenarioA2_y_retry : acquire_call camera :=
  scenarioA2_x_release.mgr.make_or_reuse false (some (camera.open 0))

/-- Handlers X, Y, Z and a fourth one call `make_or_reuse` in this order on a
manager configured with `capacity` and the callback of `main.cpp`; the result of
the `n`-th call (from 0). -/
def scenarioB (capacity : Int) : Nat → acquire_call camera
  | 0 => (resource_manager.configured capacity (some install_detector)).make_or_reuse false
      (some (camera.open 0))
  | n + 1 => (scenarioB capacity n).mgr.make_or_reuse false (some (camera.open 0))

/-- Capacity 2: three handlers call `make_or_reuse` one after the other. -/
def three_on_two : List (call camera) :=
  [call.acquire 0 (some (camera.open 0)), call.acquire 1 (some (camera.open 0)),
   call.acquire 2 (some (camera.open 0))]

/-- Capacity 2: two handlers acquire, the second one releases. -/
def two_then_one : List (call camera) :=
  [call.acquire 0 (some (camera.open 0)), call.acquire 1 (some (camera.open 0)), call.release 1]

/-- The system `two_then_one` ends in. -/
def two_then_one_end : system camera :=
  { mgr := { m_max_shared := 2,
             m_ptr := { m_max_shared := 2, m_shared := 1, m_owned := true,
                        m_ptr := some (camera.open 0) },
             m_callback := none },
    holders := [(0, true)] }

/-- Capacity 3: X creates and refreshes, Y joins and refreshes, X releases, Y
refreshes again. -/
def handover : List (call camera) :=
  [call.acquire 0 (some (camera.open 0)), call.refresh 0, call.acquire 1 (some (camera.open 0)),
   call.refresh 1, call.release 0, call.refresh 1]

/-- The system `handover` ends in: Y drives the refresh now. -/
def handover_end : system camera :=
  { mgr := { m_max_shared := 3,
             m_ptr := { m_max_shared := 3, m_shared := 1, m_owned := true,
                        m_ptr := some { index := 0, frames := 2, installed := false } },
             m_callback := none },
    holders := [(1, true)] }

/-! ## Keeping the object warm -/

/-- The system after `make_and_keep(args)` on the configured manager, `p`
being the object `new T` yields: nobody holds, the slot is pinned. -/
def system.warm (capacity : Int) (callback : Option (owner_ptr T → owner_ptr T)) (p : T) :
    system T :=
  { mgr := ((resource_manager.configured capacity callback).make_and_keep (some p)).mgr,
    holders := [] }

/-- What ties the slot to the handlers in a run that starts from the pinned
slot: the object `t` stays, `m_shared` counts the holders and the pin, the slot
is owned and no handler has `me_owner` set. -/
structure system.pinned (t : T) (s : system T) : Prop where
  object : s.mgr.m_ptr.m_ptr = some t
  count : s.mgr.m_ptr.m_shared = s.holders.length + 1
  owned : s.mgr.m_ptr.m_owned = true
  no_owner : s.owners = 0

/-- A callback that does more than wiring: it also counts itself in. -/
def counting_hook (p : owner_ptr camera) : owner_ptr camera :=
  (install_detector p).use

/-- Capacity 4 and the callback of `main.cpp`, as `main.cpp` configures it. -/
def main_manager : resource_manager camera :=
  resource_manager.configured 4 (some install_detector)

/-- Capacity 0, then `make_and_keep` with a camera that opens. -/
def warm_at_zero : resource_manager camera :=
  ((resource_manager.configured 0 none).make_and_keep (some (camera.open 0))).mgr

/-- Capacity 2, pinned slot: two handlers come, refresh and go. -/
def visitors : List (call camera) :=
  [call.acquire 0 (some (camera.open 1)), call.refresh 0, call.acquire 1 none, call.release 0,
   call.refresh 1, call.release 1]

/-- The system `visitors` ends in when started from the pinned slot. -/
def visitors_end : system camera :=
  { mgr := { m_max_shared := 2,
             m_ptr := { m_max_shared := 3, m_shared := 1, m_owned := true,
                        m_ptr := some { index := 0, frames := 0, installed := true } },
             m_callback := some install_detector },
    holders := [] }

/-- The default manager after two `make_and_keep` calls whose camera does not
open. -/
def twice_failed : resource_manager camera :=
  ((resource_manager.init.make_and_keep none).mgr.make_and_keep none).mgr

/-! ## Handlers and `make_and_keep` together -/

/-- A call of a handler, or `make_and_keep(args)` made by the program itself
(nobody releases that share). -/
inductive admin_call (T : Type) where
  | handler (c : call T)
  | keep_warm (obj : Option T)

/-- One serialised call, `make_and_keep` included. -/
def system.admin_step [Managed T] (s : system T) : admin_call T → Option (system T × Option Int)
  | admin_call.handler c => s.step c
  | admin_call.keep_warm obj =>
    some ({ mgr := (s.mgr.make_and_keep obj).mgr, holders := s.holders }, none)

/-- A sequence of serialised calls, `make_and_keep` included. -/
def system.admin_run [Managed T] (s : system T) :
    List (admin_call T) → Option (system T × List (Option Int))
  | [] => some (s, [])
  | c :: cs =>
    match s.admin_step c with
    | none => none
    | some (s1, out) =>
      match system.admin_run s1 cs with
      | none => none
      | some (s2, outs) => some (s2, out :: outs)

/-- Every `make_and_keep` of the sequence is made while no handler holds (as
in `main.cpp`, where it precedes all requests). -/
def system.idle_keep_warm [Managed T] (s : system T) : List (admin_call T) → Bool
  | [] => true
  | c :: cs =>
    (match c with
      | admin_call.keep_warm _ => s.holders.isEmpty
      | admin_call.handler _ => true) &&
    (match s.admin_step c with
      | none => true
      | some (s1, _) => system.idle_keep_warm s1 cs)

/-- What ties `m_shared` to the handlers when the slot may be pinned: it counts
the holders, and the pin if there is one, and the object is present exactly
while the count is positive. -/
structure system.counted (s : system T) : Prop where
  hook : hook_wires_only s.mgr.m_callback
  count : s.mgr.m_ptr.m_shared = s.holders.length ∨ s.mgr.m_ptr.m_shared = s.holders.length + 1
  active : s.mgr.to_bool = true ↔ 0 < s.mgr.m_ptr.m_shared

/-- Default manager: two handlers acquire, `make_and_keep` is called, both
handlers release. -/
def replaced_under_holders : List (admin_call camera) :=
  [admin_call.handler (call.acquire 0 (some (camera.open 0))),
   admin_call.handler (call.acquire 1 (some (camera.open 0))),
   admin_call.keep_warm (some (camera.open 1)),
   admin_call.handler (call.release 0),
   admin_call.handler (call.release 1)]

/-- Default manager: `make_and_keep` first, then two handlers come and go. -/
def warm_then_visitors : List (admin_call camera) :=
  [admin_call.keep_warm (some (camera.open 1)),
   admin_call.handler (call.acquire 0 (some (camera.open 0))),
   admin_call.handler (call.acquire 1 (some (camera.open 0))),
   admin_call.handler (call.release 0),
   admin_call.handler (call.release 1)]

/-- The system `warm_then_visitors` ends in. -/
def warm_then_visitors_end : system camera :=
  { mgr := { m_max_shared := -1,
             m_ptr := { m_max_shared := 0, m_shared := 1, m_owned := true,
                        m_ptr := some (camera.open 1) },
             m_callback := none },
    holders := [] }

/-! ## Ownership claims along a run -/

/-- How many `update(me_owner)` calls of the run found `try_own()` returning
`true`. -/
def system.claims [Managed T] (s : system T) : List (call T) → Nat
  | [] => 0
  | c :: cs =>
    match s.step c with
    | none => 0
    | some (s1, _) =>
      (match c with
        | call.refresh _ => if s.mgr.m_ptr.try_own.2 then 1 else 0
        | _ => 0) + system.claims s1 cs

/-- How many `release(me_owner)` calls of the run were made with `me_owner`
set. -/
def system.owner_releases [Managed T] (s : system T) : List (call T) → Nat
  | [] => 0
  | c :: cs =>
    match s.step c with
    | none => 0
    | some (s1, _) =>
      (match c with
        | call.release d => if flag_of d s.holders = some true then 1 else 0
        | _ => 0) + system.owner_releases s1 cs

/-- Default manager: X creates, Y and Z join. -/
def three_holders : List (call camera) :=
  [call.acquire 0 (some (camera.open 0)), call.acquire 1 none, call.acquire 2 none]

/-- Then X leaves, Y refreshes and leaves, Z refreshes: the generation lives
on throughout. -/
def double_handover : List (call camera) :=
  [call.release 0, call.refresh 1, call.release 1, call.refresh 2]

/-- The system `three_holders` ends in. -/
def three_holders_end : system camera :=
  { mgr := { m_max_shared := -1,
             m_ptr := { m_max_shared := -1, m_shared := 3, m_owned := true,
                        m_ptr := some (camera.open 0) },
             m_callback := none },
    holders := [(2, false), (1, false), (0, true)] }

/-- The system `double_handover` ends in when started from `three_holders_end`. -/
def double_handover_end : system camera :=
  { mgr := { m_max_shared := -1,
             m_ptr := { m_max_shared := -1, m_shared := 1, m_owned := true,
                        m_ptr := some { index := 0, frames := 2, installed := false } },
             m_callback := none },
    holders := [(2, true)] }

/-! ## The `/cam` handler -/

/-- The `status` a handler got from `make_or_reuse`, when it holds. -/
def status_of (c : Nat) : List (Nat × Int) → Option Int
  | [] => none
  | h :: hs => if h.1 = c then some h.2 else status_of c hs

/-- Forget the `status` of handler `c`. -/
def drop_status (c : Nat) : List (Nat × Int) → List (Nat × Int)
  | [] => []
  | h :: hs => if h.1 = c then hs else h :: drop_status c hs

/-- The manager, the handlers that hold, and the local `status` of each. -/
structure service (T : Type) where
  sys : system T
  statuses : List (Nat × Int)

/-- The steps of the `/cam` handler `c` of `main.cpp` that reach the manager:
its `make_or_reuse`, one `update(me_owner)` of its streaming loop, and its way
out. -/
inductive handler_call (T : Type) where
  | request (c : Nat) (obj : Option T)
  | stream (c : Nat)
  | leave (c : Nat)

/-- One step of a handler.  A handler whose `status` is 0 does not stream and
leaves through `release()`; the others stream and leave through
`release(me_owner)`.  The result is `none` for a step the handler does not
make. -/
def service.step [Managed T] (v : service T) : handler_call T → Option (service T)
  | handler_call.request c obj =>
    match v.sys.step (call.acquire c obj) with
    | none => none
    | some (s1, some st) => some { sys := s1, statuses := (c, st) :: v.statuses }
    | some (s1, none) => some { sys := s1, statuses := v.statuses }
  | handler_call.stream c =>
    match status_of c v.statuses with
    | none => none
    | some st =>
      if st = 0 then none
      else
        match v.sys.step (call.refresh c) with
        | none => none
        | some (s1, _) => some { sys := s1, statuses := v.statuses }
  | handler_call.leave c =>
    match status_of c v.statuses with
    | none => none
    | some st =>
      if st = 0 then
        match flag_of c v.sys.holders with
        | none => none
        | some _ =>
          some { sys := { mgr := v.sys.mgr.release_pointer.1,
                          holders := drop_holder c v.sys.holders },
                 statuses := drop_status c v.statuses }
      else
        match v.sys.step (call.release c) with
        | none => none
        | some (s1, _) => some { sys := s1, statuses := drop_status c v.statuses }

/-- A sequence of handler steps. -/
def service.run [Managed T] (v : service T) : List (handler_call T) → Option (service T)
  | [] => some v
  | c :: cs =>
    match v.step c with
    | none => none
    | some v1 => service.run v1 cs

/-- The service before any request. -/
def service.start (capacity : Int) (callback : Option (owner_ptr T → owner_ptr T)) : service T :=
  { sys := system.start capacity callback, statuses := [] }

/-- The number of handlers that were returned a status other than 0 and have
not left yet. -/
def service.served (v : service T) : Nat :=
  v.statuses.countP (fun h => decide (h.2 ≠ 0))

/-- What a run of handlers keeps: slot and holders are consistent and every
holder has its `status`. -/
structure service.consistent (capacity : Int) (v : service T) : Prop where
  sys_consistent : v.sys.consistent capacity
  statuses_length : v.statuses.length = v.sys.holders.length

/-- Capacity 3 and four threads' worth of requests: X and Y are served, Z and W
are turned away and leave, X leaves, Z comes back. -/
def busy_evening : List (handler_call camera) :=
  [handler_call.request 0 (some (camera.open 0)), handler_call.request 1 none,
   handler_call.stream 0, handler_call.request 2 none, handler_call.request 3 none,
   handler_call.stream 1, handler_call.leave 2, handler_call.leave 3, handler_call.leave 0,
   handler_call.stream 1, handler_call.request 2 none]

/-- The service `busy_evening` ends in: Y and Z are served, Y drives the
refresh. -/
def busy_evening_end : service camera :=
  { sys := { mgr := { m_max_shared := 3,
                      m_ptr := { m_max_shared := 3, m_shared := 2, m_owned := true,
                                 m_ptr := some { index := 0, frames := 2, installed := false } },
                      m_callback := none },
             holders := [(2, false), (1, true)] },
    statuses := [(2, 2), (1, 2)] }

end gh

namespace gh

variable {T : Type}

/-! ## Basic facts about the calls -/

theorem install_detector_wiring_only : wiring_only install_detector := by
  intro p
  cases h : p.m_ptr <;> simp [install_detector, h]

theorem hook_wires_only_none : hook_wires_only (none : Option (owner_ptr T → owner_ptr T)) := by
  intro f hf
  cases hf

theorem hook_wires_only_install : hook_wires_only (some install_detector) := by
  intro f hf
  cases hf
  exact install_detector_wiring_only

/-- On an active generation `make_or_reuse` only counts the caller. -/
theorem make_or_reuse_active (m : resource_manager T) (me_owner : Bool) (obj : Option T)
    (h : m.to_bool = true) :
    m.make_or_reuse me_owner obj =
      { mgr := { m with m_ptr := { m.m_ptr with m_shared := m.m_ptr.m_shared + 1 } },
        me_owner := me_owner,
        value := some (if (0 < m.m_ptr.m_max_shared ∧ m.m_ptr.m_max_shared ≤ m.m_ptr.m_shared + 1)
          then 0 else (if me_owner then 1 else 2)) } := by
  simp only [resource_manager.to_bool] at h
  simp only [resource_manager.make_or_reuse, h, if_true, owner_ptr.use, owner_ptr.reached]
  congr 2
  by_cases h1 : m.m_ptr.m_max_shared ≤ 0
  · have : ¬ (0 < m.m_ptr.m_max_shared) := by omega
    simp [h1, this]
  · have : 0 < m.m_ptr.m_max_shared := by omega
    simp [h1, this]

/-- The slot right after `make_without_lock` succeeded. -/
theorem make_without_lock_slot (m : resource_manager T) (p : T)
    (hcb : hook_wires_only m.m_callback) :
    (m.make_without_lock (some p)).returned = true ∧
    (m.make_without_lock (some p)).mgr.m_max_shared = m.m_max_shared ∧
    (m.make_without_lock (some p)).mgr.m_callback = m.m_callback ∧
    (m.make_without_lock (some p)).mgr.m_ptr.m_max_shared = m.m_max_shared ∧
    (m.make_without_lock (some p)).mgr.m_ptr.m_shared = 1 ∧
    (m.make_without_lock (some p)).mgr.m_ptr.m_owned = true ∧
    (m.make_without_lock (some p)).mgr.m_ptr.m_ptr.isSome = true ∧
    (m.m_callback = none → (m.make_without_lock (some p)).mgr.m_ptr.m_ptr = some p) := by
  cases hc : m.m_callback with
  | none =>
    simp [resource_manager.make_without_lock, hc, owner_ptr.move_assign, owner_ptr.swap,
      make_owner, owner_ptr.of_pointer, owner_ptr.set_max_shared]
  | some f =>
    obtain ⟨h1, h2, h3, h4⟩ := hcb f hc
      { m_max_shared := m.m_max_shared, m_shared := 1, m_owned := true, m_ptr := some p }
    simp [resource_manager.make_without_lock, hc, h1, h2, h3, h4, owner_ptr.move_assign,
      owner_ptr.swap, make_owner, owner_ptr.of_pointer, owner_ptr.set_max_shared]

/-- On a manager without generation a successful `make_or_reuse` is
`make_without_lock` followed by setting the caller's flag; the status is 0 for
capacity 1 and 1 otherwise. -/
theorem make_or_reuse_empty (m : resource_manager T) (me_owner : Bool) (p : T)
    (hempty : m.to_bool = false) (hcb : hook_wires_only m.m_callback) :
    m.make_or_reuse me_owner (some p) =
      { mgr := (m.make_without_lock (some p)).mgr, me_owner := true,
        value := some (if m.m_max_shared = 1 then 0 else 1) } := by
  obtain ⟨h1, -, -, h4, h5, -, -, -⟩ := make_without_lock_slot m p hcb
  simp only [resource_manager.to_bool] at hempty
  have hr : (m.make_without_lock (some p)).mgr.m_ptr.reached = decide (m.m_max_shared = 1) := by
    simp only [owner_ptr.reached, h4, h5]
    by_cases h : m.m_max_shared ≤ 0
    · have : m.m_max_shared ≠ 1 := by omega
      simp [h, this]
    · by_cases h2 : m.m_max_shared = 1
      · simp [h2]
      · have : ¬ (m.m_max_shared ≤ 1) := by omega
        simp [h, h2, this]
  simp only [resource_manager.make_or_reuse, hempty, h1, hr]
  by_cases h : m.m_max_shared = 1 <;> simp [h]

/-- When `new T` throws, `make_or_reuse` on a manager without generation leaves
everything as it is. -/
theorem make_or_reuse_throws (m : resource_manager T) (me_owner : Bool)
    (hempty : m.to_bool = false) :
    m.make_or_reuse me_owner none = { mgr := m, me_owner := me_owner, value := none } := by
  simp only [resource_manager.to_bool] at hempty
  simp [resource_manager.make_or_reuse, hempty, resource_manager.make_without_lock]

/-- The callback is never replaced by `make_or_reuse`. -/
theorem make_or_reuse_callback (m : resource_manager T) (me_owner : Bool) (obj : Option T) :
    (m.make_or_reuse me_owner obj).mgr.m_callback = m.m_callback := by
  cases obj <;> cases h : m.m_ptr.to_bool <;>
    simp [resource_manager.make_or_reuse, resource_manager.make_without_lock, h]

/-! ## Joining -/

/-- C2, at a concrete state: with capacity 1 and the generation created by X,
the manager is active and `reached()` holds, yet a further `make_or_reuse`
changes `m_shared`. -/
theorem make_or_reuse_at_capacity_changes_count :
    scenarioA_x.mgr.to_bool = true ∧ scenarioA_x.mgr.m_ptr.reached = true ∧
    (scenarioA_x.mgr.make_or_reuse false (some (camera.open 0))).value = some 0 ∧
    (scenarioA_x.mgr.make_or_reuse false (some (camera.open 0))).mgr.m_ptr.m_shared
      ≠ scenarioA_x.mgr.m_ptr.m_shared := by
  decide

/-- C2, as the code has it: on an active generation for which `reached()` holds
before the call, `make_or_reuse` returns 0 and changes exactly one thing,
`m_shared`, which goes up by one; the managed object, `m_owned`, both capacities,
the callback and the caller's `me_owner` are as before. -/
theorem make_or_reuse_at_capacity (m : resource_manager T) (me_owner : Bool) (obj : Option T)
    (hactive : m.to_bool = true) (hreached : m.m_ptr.reached = true) :
    m.make_or_reuse me_owner obj =
      { mgr := { m with m_ptr := { m.m_ptr with m_shared := m.m_ptr.m_shared + 1 } },
        me_owner := me_owner, value := some 0 } := by
  rw [make_or_reuse_active m me_owner obj hactive]
  have h : 0 < m.m_ptr.m_max_shared ∧ m.m_ptr.m_max_shared ≤ m.m_ptr.m_shared + 1 := by
    simp only [owner_ptr.reached] at hreached
    by_cases h1 : m.m_ptr.m_max_shared ≤ 0
    · simp [h1] at hreached
    · simp [h1] at hreached
      omega
  simp [h]

theorem make_or_reuse_at_capacity_witness :
    scenarioA_x.mgr.to_bool = true ∧ scenarioA_x.mgr.m_ptr.reached = true ∧
    scenarioA_x.mgr.make_or_reuse false none =
      { mgr := { scenarioA_x.mgr with
          m_ptr := { scenarioA_x.mgr.m_ptr with m_shared := scenarioA_x.mgr.m_ptr.m_shared + 1 } },
        me_owner := false, value := some 0 } :=
  ⟨by decide, by decide, make_or_reuse_at_capacity scenarioA_x.mgr false none (by decide) (by decide)⟩

/-- C3, at a concrete run: with capacity 3, after X created and Y joined the
manager is active and `reached()` is false, yet the third caller Z is returned
0, not 2. -/
theorem third_of_three_is_turned_away :
    (scenarioB 3 1).mgr.to_bool = true ∧ (scenarioB 3 1).mgr.m_ptr.reached = false ∧
    (scenarioB 3 2).value = some 0 ∧ (scenarioB 3 2).value ≠ some 2 := by
  decide

/-- C3, as the code has it: on an active generation for which `reached()` is
false before the call, `make_or_reuse` with `me_owner = false` increments
`m_shared` by exactly one, changes nothing else and leaves `me_owner` false; it
returns 2 unless the incremented count has reached the capacity of the slot, and
0 when it has (`m_shared + 1 = m_max_shared`).  With capacity 3 the calls of X,
Y, Z and a fourth caller return 1, 2, 0, 0; with capacity 4 they return
1, 2, 2, 0. -/
theorem make_or_reuse_below_capacity (m : resource_manager T) (obj : Option T)
    (hactive : m.to_bool = true) (hreached : m.m_ptr.reached = false) :
    (m.make_or_reuse false obj).mgr =
      { m with m_ptr := { m.m_ptr with m_shared := m.m_ptr.m_shared + 1 } } ∧
    (m.make_or_reuse false obj).me_owner = false ∧
    ((m.make_or_reuse false obj).value = some 2 ∨ (m.make_or_reuse false obj).value = some 0) ∧
    ((m.make_or_reuse false obj).value = some 0 ↔
      (0 < m.m_ptr.m_max_shared ∧ m.m_ptr.m_shared + 1 = m.m_ptr.m_max_shared)) ∧
    (List.range 4).map (fun n => (scenarioB 3 n).value) = [some 1, some 2, some 0, some 0] ∧
    (List.range 4).map (fun n => (scenarioB 3 n).mgr.m_ptr.m_shared) = [1, 2, 3, 4] ∧
    (List.range 4).map (fun n => (scenarioB 4 n).value) = [some 1, some 2, some 2, some 0] := by
  rw [make_or_reuse_active m false obj hactive]
  have h : ¬ (0 < m.m_ptr.m_max_shared ∧ m.m_ptr.m_max_shared ≤ m.m_ptr.m_shared) := by
    simp only [owner_ptr.reached] at hreached
    by_cases h1 : m.m_ptr.m_max_shared ≤ 0
    · omega
    · simp [h1] at hreached
      omega
  refine ⟨rfl, rfl, ?_, ?_, by decide, by decide, by decide⟩
  · by_cases h2 : 0 < m.m_ptr.m_max_shared ∧ m.m_ptr.m_max_shared ≤ m.m_ptr.m_shared + 1
    · simp [h2]
    · simp [h2]
  · by_cases h2 : 0 < m.m_ptr.m_max_shared ∧ m.m_ptr.m_max_shared ≤ m.m_ptr.m_shared + 1
    · have h5 : 0 < m.m_ptr.m_max_shared ∧ m.m_ptr.m_shared + 1 = m.m_ptr.m_max_shared := by
        have h6 : ¬ (m.m_ptr.m_max_shared ≤ m.m_ptr.m_shared) := fun h7 => h ⟨h2.1, h7⟩
        exact ⟨h2.1, by omega⟩
      simp [h2, h5]
    · have h4 : ¬ (0 < m.m_ptr.m_max_shared ∧ m.m_ptr.m_shared + 1 = m.m_ptr.m_max_shared) :=
        fun h3 => h2 ⟨h3.1, by omega⟩
      simp [h2, h4]

theorem make_or_reuse_below_capacity_witness :
    (scenarioB 4 1).mgr.to_bool = true ∧ (scenarioB 4 1).mgr.m_ptr.reached = false ∧
    (scenarioB 4 1).mgr.m_ptr.m_shared = 2 ∧
    ((scenarioB 4 1).mgr.make_or_reuse false none).mgr.m_ptr.m_shared = 2 + 1 ∧
    ((scenarioB 4 1).mgr.make_or_reuse false none).me_owner = false :=
  have h := make_or_reuse_below_capacity (scenarioB 4 1).mgr none (by decide) (by decide)
  ⟨by decide, by decide, by decide, by rw [h.1]; decide, h.2.1⟩

/-! ## Creating -/

/-- C4: on a manager without an active generation, whatever the configured
capacity and the caller's flag, a `make_or_reuse` whose construction succeeds
(the callback, if any, only wiring the object) leaves an active generation with
`m_shared = 1`, sets `me_owner`, and returns 1 when `reached()` is false for the
new generation and 0 exactly when the configured capacity is 1; in either case
the generation is retained with `m_shared = 1`. -/
theorem make_or_reuse_creates (m : resource_manager T) (me_owner : Bool) (p : T)
    (hempty : m.to_bool = false) (hcb : hook_wires_only m.m_callback) :
    (m.make_or_reuse me_owner (some p)).mgr.to_bool = true ∧
    (m.make_or_reuse me_owner (some p)).mgr.m_ptr.m_shared = 1 ∧
    (m.make_or_reuse me_owner (some p)).me_owner = true ∧
    ((m.make_or_reuse me_owner (some p)).mgr.m_ptr.reached = false →
      (m.make_or_reuse me_owner (some p)).value = some 1) ∧
    ((m.make_or_reuse me_owner (some p)).value = some 0 ↔ m.m_max_shared = 1) ∧
    ((m.make_or_reuse me_owner (some p)).value = some 1 ↔ m.m_max_shared ≠ 1) ∧
    (m.m_callback = none → (m.make_or_reuse me_owner (some p)).mgr.m_ptr.m_ptr = some p) := by
  obtain ⟨-, -, -, -, h5, -, h7, h8⟩ := make_without_lock_slot m p hcb
  rw [make_or_reuse_empty m me_owner p hempty hcb]
  refine ⟨h7, h5, rfl, ?_, ?_, ?_, h8⟩
  · intro hr
    have h4 := (make_without_lock_slot m p hcb).2.2.2.1
    simp only [owner_ptr.reached, h4, h5] at hr
    have : m.m_max_shared ≠ 1 := by
      intro h
      simp [h] at hr
    simp [this]
  · by_cases h : m.m_max_shared = 1 <;> simp [h]
  · by_cases h : m.m_max_shared = 1 <;> simp [h]

theorem make_or_reuse_creates_witness :
    (resource_manager.configured 1 (some install_detector)).to_bool = false ∧
    ((resource_manager.configured 1 (some install_detector)).make_or_reuse false
      (some (camera.open 0))).mgr.m_ptr.m_shared = 1 ∧
    ((resource_manager.configured 1 (some install_detector)).make_or_reuse false
      (some (camera.open 0))).value = some 0 :=
  have h := make_or_reuse_creates (resource_manager.configured 1 (some install_detector)) false
    (camera.open 0) (by decide) hook_wires_only_install
  ⟨by decide, h.2.1, h.2.2.2.2.1.mpr (by decide)⟩

/-! ## Scenario A -/

/-- C5, at the first call: with capacity 1 the creating call of X does not
return 1. -/
theorem scenarioA_first_call_is_not_created :
    scenarioA_x.value = some 0 ∧ scenarioA_x.value ≠ some 1 := by
  decide

/-- C5, as the code has it.  Capacity 1, empty manager: the call of X returns 0
with X's flag set (the generation is created, `m_shared = 1`); the call of Y
returns 0 with Y's flag false (and `m_shared = 2`); `release` by X with its flag
returns 0 (nothing destroyed, `m_shared = 1`); the second call of Y returns 0.
The statuses 1, 0, destroyed, 1 are those of capacity 2 when Y, turned away,
releases before X does. -/
theorem scenarioA_as_coded :
    (scenarioA_x.value = some 0 ∧ scenarioA_x.me_owner = true ∧
      scenarioA_x.mgr.m_ptr.m_shared = 1 ∧ scenarioA_x.mgr.to_bool = true) ∧
    (scenarioA_y.value = some 0 ∧ scenarioA_y.me_owner = false ∧
      scenarioA_y.mgr.m_ptr.m_shared = 2) ∧
    (scenarioA_x_release.value = 0 ∧ scenarioA_x_release.deleted = none ∧
      scenarioA_x_release.mgr.m_ptr.m_shared = 1 ∧ scenarioA_x_release.mgr.to_bool = true) ∧
    scenarioA_y_retry.value = some 0 ∧
    (scenarioA2_x.value = some 1 ∧ scenarioA2_x.me_owner = true) ∧
    (scenarioA2_y.value = some 0 ∧ scenarioA2_y.me_owner = false) ∧
    scenarioA2_y_release.value = 0 ∧
    (scenarioA2_x_release.value = 1 ∧ scenarioA2_x_release.mgr.to_bool = false) ∧
    (scenarioA2_y_retry.value = some 1 ∧ scenarioA2_y_retry.me_owner = true) := by
  decide

/-! ## Releasing -/

/-- C8: on an active generation with `m_shared = k ≥ 1`, `release` with either
flag returns 1 if and only if `k = 1` (and 0 otherwise); when `k = 1` the object
is deleted and the manager is left without generation, `m_shared = 0`, so that a
further `release` deletes nothing; when `k > 1` nothing is deleted and the same
object is still held with `m_shared = k - 1`. -/
theorem release_destroys_exactly_at_last (m : resource_manager T) (me_owner : Bool) (t : T)
    (k : Int) (hactive : m.m_ptr.m_ptr = some t) (hk : m.m_ptr.m_shared = k) (hpos : 1 ≤ k) :
    ((m.release me_owner).value = 1 ↔ k = 1) ∧
    ((m.release me_owner).value = 0 ↔ k ≠ 1) ∧
    ((m.release me_owner).deleted = some t ↔ k = 1) ∧
    ((m.release me_owner).deleted = none ↔ k ≠ 1) ∧
    (k = 1 → (m.release me_owner).mgr.to_bool = false ∧
      (m.release me_owner).mgr.m_ptr.m_shared = 0 ∧
      ∀ f, ((m.release me_owner).mgr.release f).deleted = none) ∧
    (1 < k → (m.release me_owner).mgr.to_bool = true ∧
      (m.release me_owner).mgr.m_ptr.m_ptr = some t ∧
      (m.release me_owner).mgr.m_ptr.m_shared = k - 1) := by
  by_cases h : k = 1
  · subst h
    have h0 : m.m_ptr.m_shared - 1 = 0 := by omega
    cases me_owner <;>
      simp [resource_manager.release, owner_ptr.release, owner_ptr.reset, hactive, hk, h0,
        resource_manager.to_bool, owner_ptr.to_bool]
  · have h0 : ¬ (m.m_ptr.m_shared - 1 = 0) := by omega
    have h1 : ¬ (k - 1 = 0) := by omega
    have h2 : 1 < k := by omega
    cases me_owner <;>
      simp [resource_manager.release, owner_ptr.release, owner_ptr.reset, hactive, hk, h0, h1,
        h, h2, resource_manager.to_bool, owner_ptr.to_bool]

theorem release_destroys_exactly_at_last_witness :
    scenarioA_y.mgr.m_ptr.m_ptr = some (camera.open 0) ∧ scenarioA_y.mgr.m_ptr.m_shared = 2 ∧
    ((scenarioA_y.mgr.release true).value = 1 ↔ (2 : Int) = 1) ∧
    (scenarioA_y.mgr.release true).mgr.m_ptr.m_shared = 2 - 1 :=
  have h := release_destroys_exactly_at_last scenarioA_y.mgr true (camera.open 0) 2
    (by decide) (by decide) (by decide)
  ⟨by decide, by decide, h.1, (h.2.2.2.2.2 (by decide)).2.2⟩

/-! ## Refreshing -/

/-- While the slot is owned, `update(me_owner)` by a handler without the flag
does nothing at all. -/
theorem update_not_owner [Managed T] (m : resource_manager T) (howned : m.m_ptr.m_owned = true) :
    m.update false = some (m, false) := by
  simp [resource_manager.update, owner_ptr.try_own, howned]

/-- While the slot is owned, `update(me_owner)` by the handler with the flag
calls `T::update()` once. -/
theorem update_owner [Managed T] (m : resource_manager T) (t : T)
    (howned : m.m_ptr.m_owned = true) (hobj : m.m_ptr.m_ptr = some t) :
    m.update true = some (m.with_object (Managed.update t), true) := by
  simp [resource_manager.update, owner_ptr.try_own, howned, hobj, resource_manager.with_object]

theorem refresh_loop_not_owner [Managed T] (m : resource_manager T)
    (howned : m.m_ptr.m_owned = true) (n : Nat) :
    m.refresh_loop false n = some (m, false) := by
  induction n with
  | zero => rfl
  | succ n ih => simp [resource_manager.refresh_loop, update_not_owner m howned, ih]

theorem with_object_with_object (m : resource_manager T) (t u : T) :
    (m.with_object t).with_object u = m.with_object u := rfl

theorem refresh_loop_owner [Managed T] (m : resource_manager T) (t : T)
    (howned : m.m_ptr.m_owned = true) (hobj : m.m_ptr.m_ptr = some t) (k : Nat) :
    m.refresh_loop true k = some (m.with_object (Managed.update^[k] t), true) := by
  induction k generalizing m t with
  | zero =>
    simp only [resource_manager.refresh_loop, Function.iterate_zero, id_eq]
    cases m with
    | mk a b c =>
      cases b with
      | mk d e f g =>
        simp only [resource_manager.with_object] at hobj ⊢
        simp [hobj]
  | succ k ih =>
    simp only [resource_manager.refresh_loop, update_owner m t howned hobj]
    rw [ih (m.with_object (Managed.update t)) (Managed.update t) howned rfl]
    simp [with_object_with_object, Function.iterate_succ_apply]

/-- C7: after X created a generation and Y joined it, X carries the flag and Y
does not, `m_shared = 2`, and an object `t` is held.  Whatever the number `k` of
`update(me_owner)` calls made by X so far, the object is `update^[k] t` (one
`T::update()` per call by X); from there `n` calls by Y leave the manager,
object and `m_shared` included, exactly as it is and Y's flag false, and one
more call by X applies `T::update()` exactly once and changes nothing else. -/
theorem refresh_is_driven_by_the_creator [Managed T] (capacity : Int)
    (callback : Option (owner_ptr T → owner_ptr T)) (hcb : hook_wires_only callback)
    (x : T) (obj : Option T) (k n : Nat) :
    (x_creates capacity callback x).me_owner = true ∧
    (y_joins capacity callback x obj).me_owner = false ∧
    (y_joins capacity callback x obj).mgr.m_ptr.m_shared = 2 ∧
    ∃ t, (y_joins capacity callback x obj).mgr.m_ptr.m_ptr = some t ∧
      (y_joins capacity callback x obj).mgr.refresh_loop true k =
        some ((y_joins capacity callback x obj).mgr.with_object (Managed.update^[k] t), true) ∧
      ((y_joins capacity callback x obj).mgr.with_object (Managed.update^[k] t)).refresh_loop
          false n =
        some ((y_joins capacity callback x obj).mgr.with_object (Managed.update^[k] t), false) ∧
      ((y_joins capacity callback x obj).mgr.with_object (Managed.update^[k] t)).update true =
        some ((y_joins capacity callback x obj).mgr.with_object (Managed.update^[k + 1] t), true) ∧
      ((y_joins capacity callback x obj).mgr.with_object (Managed.update^[k + 1] t)).m_ptr.m_shared
        = 2 := by
  have hempty : (resource_manager.configured capacity callback : resource_manager T).to_bool
      = false := rfl
  have hc := make_or_reuse_empty (resource_manager.configured capacity callback) false x
    hempty hcb
  obtain ⟨-, -, -, -, h5, h6, h7, -⟩ :=
    make_without_lock_slot (resource_manager.configured capacity callback) x hcb
  have hxeq : x_creates capacity callback x = _ := hc
  have hx : (x_creates capacity callback x).mgr =
      ((resource_manager.configured capacity callback).make_without_lock (some x)).mgr := by
    rw [hxeq]
  have hxo : (x_creates capacity callback x).mgr.m_ptr.m_owned = true := by rw [hx]; exact h6
  have hxs : (x_creates capacity callback x).mgr.m_ptr.m_shared = 1 := by rw [hx]; exact h5
  have hxp : (x_creates capacity callback x).mgr.m_ptr.m_ptr.isSome = true := by rw [hx]; exact h7
  have hy := make_or_reuse_active (x_creates capacity callback x).mgr false obj hxp
  have hyeq : (y_joins capacity callback x obj) = _ := hy
  have hy1 : (y_joins capacity callback x obj).mgr.m_ptr.m_owned = true := by
    rw [hyeq]; exact hxo
  have hy2 : (y_joins capacity callback x obj).mgr.m_ptr.m_shared = 2 := by
    rw [hyeq]
    show (x_creates capacity callback x).mgr.m_ptr.m_shared + 1 = 2
    rw [hxs]; rfl
  have hy3 : (y_joins capacity callback x obj).mgr.m_ptr.m_ptr.isSome = true := by
    rw [hyeq]; exact hxp
  obtain ⟨t, ht⟩ := Option.isSome_iff_exists.mp hy3
  refine ⟨by rw [hxeq], ?_, hy2, t, ht, refresh_loop_owner _ t hy1 ht k, ?_, ?_, hy2⟩
  · rw [hyeq]
  · exact refresh_loop_not_owner
      ((y_joins capacity callback x obj).mgr.with_object (Managed.update^[k] t)) hy1 n
  · rw [update_owner ((y_joins capacity callback x obj).mgr.with_object (Managed.update^[k] t))
      (Managed.update^[k] t) hy1 rfl, with_object_with_object, Function.iterate_succ_apply']

theorem refresh_is_driven_by_the_creator_witness :
    hook_wires_only (some install_detector) ∧
    (y_joins 3 (some install_detector) (camera.open 0) none).mgr.m_ptr.m_ptr =
      some { index := 0, frames := 0, installed := true } ∧
    ∃ t, (y_joins 3 (some install_detector) (camera.open 0) none).mgr.m_ptr.m_ptr = some t ∧
      (y_joins 3 (some install_detector) (camera.open 0) none).mgr.refresh_loop true 2 =
        some ((y_joins 3 (some install_detector) (camera.open 0) none).mgr.with_object
          (Managed.update^[2] t), true) ∧
      ((y_joins 3 (some install_detector) (camera.open 0) none).mgr.with_object
          (Managed.update^[2] t)).refresh_loop false 5 =
        some ((y_joins 3 (some install_detector) (camera.open 0) none).mgr.with_object
          (Managed.update^[2] t), false) :=
  have h := refresh_is_driven_by_the_creator 3 (some install_detector) hook_wires_only_install
    (camera.open 0) none 2 5
  ⟨hook_wires_only_install, by decide,
    h.2.2.2.elim fun t ht => ⟨t, ht.1, ht.2.1, ht.2.2.1⟩⟩

/-! ## The holders of a run -/

theorem drop_holder_length (c : Nat) (f : Bool) (hs : List (Nat × Bool))
    (h : flag_of c hs = some f) : (drop_holder c hs).length + 1 = hs.length := by
  induction hs with
  | nil => simp [flag_of] at h
  | cons a hs ih =>
    by_cases hc : a.1 = c
    · simp [drop_holder, hc]
    · simp only [flag_of, hc, if_false] at h
      simp [drop_holder, hc, ih h]

theorem drop_holder_owners (c : Nat) (f : Bool) (hs : List (Nat × Bool))
    (h : flag_of c hs = some f) :
    (drop_holder c hs).countP (fun h => h.2) + (if f then 1 else 0) = hs.countP (fun h => h.2) := by
  induction hs with
  | nil => simp [flag_of] at h
  | cons a hs ih =>
    by_cases hc : a.1 = c
    · simp only [flag_of, hc, if_true, Option.some.injEq] at h
      cases f <;> simp [drop_holder, hc, h, List.countP_cons]
    · simp only [flag_of, hc, if_false] at h
      have := ih h
      simp only [drop_holder, hc, if_false, List.countP_cons]
      omega

theorem set_flag_length (c : Nat) (f : Bool) (hs : List (Nat × Bool)) :
    (set_flag c f hs).length = hs.length := by
  induction hs with
  | nil => rfl
  | cons a hs ih =>
    by_cases hc : a.1 = c
    · simp [set_flag, hc]
    · simp [set_flag, hc, ih]

theorem set_flag_owners (c : Nat) (f g : Bool) (hs : List (Nat × Bool))
    (h : flag_of c hs = some f) :
    (set_flag c g hs).countP (fun h => h.2) + (if f then 1 else 0) =
      hs.countP (fun h => h.2) + (if g then 1 else 0) := by
  induction hs with
  | nil => simp [flag_of] at h
  | cons a hs ih =>
    by_cases hc : a.1 = c
    · simp only [flag_of, hc, if_true, Option.some.injEq] at h
      cases f <;> cases g <;> simp [set_flag, hc, h, List.countP_cons]
    · simp only [flag_of, hc, if_false] at h
      have := ih h
      simp only [set_flag, hc, if_false, List.countP_cons]
      omega

theorem set_flag_same (c : Nat) (f : Bool) (hs : List (Nat × Bool))
    (h : flag_of c hs = some f) : set_flag c f hs = hs := by
  induction hs with
  | nil => rfl
  | cons a hs ih =>
    by_cases hc : a.1 = c
    · simp only [flag_of, hc, if_true, Option.some.injEq] at h
      simp only [set_flag, hc, if_true]
      rw [← hc, ← h]
    · simp only [flag_of, hc, if_false] at h
      simp [set_flag, hc, ih h]

theorem flag_of_owner_counts (c : Nat) (hs : List (Nat × Bool))
    (h : flag_of c hs = some true) : 0 < hs.countP (fun h => h.2) := by
  have := drop_holder_owners c true hs h
  simp only [if_true] at this
  omega

theorem flag_of_drop_holder (c d : Nat) (hs : List (Nat × Bool)) (hcd : d ≠ c) :
    flag_of d (drop_holder c hs) = flag_of d hs := by
  induction hs with
  | nil => rfl
  | cons a hs ih =>
    by_cases hc : a.1 = c
    · have hd : ¬ (a.1 = d) := by rw [hc]; exact fun h => hcd h.symm
      rw [drop_holder, if_pos hc, flag_of, if_neg hd]
    · by_cases hd : a.1 = d
      · rw [drop_holder, if_neg hc, flag_of, if_pos hd, flag_of, if_pos hd]
      · rw [drop_holder, if_neg hc, flag_of, if_neg hd, flag_of, if_neg hd, ih]

/-! ## Runs keep slot and holders consistent -/

theorem start_consistent (capacity : Int) (callback : Option (owner_ptr T → owner_ptr T))
    (hcb : hook_wires_only callback) :
    (system.start capacity callback : system T).consistent capacity where
  capacity_eq := rfl
  hook := hcb
  slot_capacity := fun h => by cases h
  count := rfl
  active := by simp [system.start, resource_manager.configured, resource_manager.init,
    resource_manager.to_bool, owner_ptr.to_bool, owner_ptr.null, resource_manager.set_max_shared]
  one_owner := by simp [system.owners, system.start]
  owned := fun h => by simp [system.owners, system.start] at h

theorem acquire_consistent [Managed T] (capacity : Int) (s s1 : system T) (c : Nat)
    (obj : Option T) (out : Option Int) (h : s.consistent capacity)
    (hs : s.step (call.acquire c obj) = some (s1, out)) : s1.consistent capacity := by
  cases hfl : flag_of c s.holders with
  | some f => simp [system.step, hfl] at hs
  | none =>
    simp only [system.step, hfl] at hs
    by_cases ha : s.mgr.to_bool = true
    · rw [make_or_reuse_active s.mgr false obj ha] at hs
      simp only [Option.some.injEq, Prod.mk.injEq] at hs
      obtain ⟨rfl, -⟩ := hs
      have hne : s.holders ≠ [] := h.active.mp ha
      exact {
        capacity_eq := h.capacity_eq
        hook := h.hook
        slot_capacity := fun _ => h.slot_capacity ha
        count := by
          show s.mgr.m_ptr.m_shared + 1 = _
          rw [h.count]; simp
        active := by
          constructor
          · intro _; simp
          · intro _; exact ha
        one_owner := by
          have := h.one_owner
          simpa [system.owners, List.countP_cons] using this
        owned := fun h0 => by
          have h1 : 0 < s.owners := by simpa [system.owners, List.countP_cons] using h0
          exact h.owned h1 }
    · have ha : s.mgr.to_bool = false := by simpa using ha
      have hnil : s.holders = [] := by
        by_contra hne
        have := h.active.mpr hne
        rw [ha] at this
        cases this
      cases obj with
      | none =>
        rw [make_or_reuse_throws s.mgr false ha] at hs
        simp only [Option.some.injEq, Prod.mk.injEq] at hs
        obtain ⟨rfl, -⟩ := hs
        exact h
      | some p =>
        rw [make_or_reuse_empty s.mgr false p ha h.hook] at hs
        simp only [Option.some.injEq, Prod.mk.injEq] at hs
        obtain ⟨rfl, -⟩ := hs
        obtain ⟨-, h2, h3, h4, h5, h6, h7, -⟩ := make_without_lock_slot s.mgr p h.hook
        exact {
          capacity_eq := by show (s.mgr.make_without_lock (some p)).mgr.m_max_shared = _
                            rw [h2, h.capacity_eq]
          hook := by show hook_wires_only (s.mgr.make_without_lock (some p)).mgr.m_callback
                     rw [h3]; exact h.hook
          slot_capacity := fun _ => by
            show (s.mgr.make_without_lock (some p)).mgr.m_ptr.m_max_shared = _
            rw [h4, h.capacity_eq]
          count := by
            show (s.mgr.make_without_lock (some p)).mgr.m_ptr.m_shared = _
            rw [h5, hnil]; rfl
          active := by
            constructor
            · intro _; simp
            · intro _; exact h7
          one_owner := by simp [system.owners, hnil]
          owned := fun _ => h6 }

/-- What `update(me_owner)` can change: the value of the managed object, and
`m_owned` and the caller's flag when the slot was not owned. -/
theorem update_frame [Managed T] (m m1 : resource_manager T) (f f1 : Bool)
    (h : m.update f = some (m1, f1)) :
    m1.m_max_shared = m.m_max_shared ∧ m1.m_callback = m.m_callback ∧
    m1.m_ptr.m_max_shared = m.m_ptr.m_max_shared ∧ m1.m_ptr.m_shared = m.m_ptr.m_shared ∧
    m1.m_ptr.m_ptr.isSome = m.m_ptr.m_ptr.isSome ∧ m1.m_ptr.m_owned = true ∧
    f1 = (f || !m.m_ptr.m_owned) := by
  cases ho : m.m_ptr.m_owned <;> cases f <;> cases hp : m.m_ptr.m_ptr <;>
    simp [resource_manager.update, owner_ptr.try_own, ho, hp] at h <;>
    obtain ⟨rfl, rfl⟩ := h <;> simp [ho, hp]

/-- What `release(me_owner)` changes. -/
theorem release_frame (m : resource_manager T) (f : Bool) :
    (m.release f).mgr.m_max_shared = m.m_max_shared ∧
    (m.release f).mgr.m_callback = m.m_callback ∧
    (m.release f).mgr.m_ptr.m_max_shared = m.m_ptr.m_max_shared ∧
    (m.release f).mgr.m_ptr.m_shared = m.m_ptr.m_shared - 1 ∧
    (m.release f).mgr.m_ptr.m_ptr = (if m.m_ptr.m_shared - 1 = 0 then none else m.m_ptr.m_ptr) ∧
    (m.release f).mgr.m_ptr.m_owned = (m.m_ptr.m_owned && !f) ∧
    (m.release f).deleted = (if m.m_ptr.m_shared - 1 = 0 then m.m_ptr.m_ptr else none) ∧
    (m.release f).value = (if m.m_ptr.m_shared - 1 = 0 ∧ m.m_ptr.m_ptr.isSome then 1 else 0) := by
  by_cases h0 : m.m_ptr.m_shared - 1 = 0 <;> cases f <;> cases hp : m.m_ptr.m_ptr <;>
    simp [resource_manager.release, owner_ptr.release, owner_ptr.reset, h0, hp]

theorem refresh_consistent [Managed T] (capacity : Int) (s s1 : system T) (c : Nat)
    (out : Option Int) (h : s.consistent capacity)
    (hs : s.step (call.refresh c) = some (s1, out)) : s1.consistent capacity := by
  cases hfl : flag_of c s.holders with
  | none => simp [system.step, hfl] at hs
  | some f =>
    simp only [system.step, hfl] at hs
    cases hu : s.mgr.update f with
    | none => simp [hu] at hs
    | some r =>
      obtain ⟨m1, f1⟩ := r
      simp only [hu, Option.some.injEq, Prod.mk.injEq] at hs
      obtain ⟨rfl, -⟩ := hs
      obtain ⟨h1, h2, h3, h4, h5, h6, h7⟩ := update_frame s.mgr m1 f f1 hu
      have hcount := set_flag_owners c f f1 s.holders hfl
      have hone := h.one_owner
      simp only [system.owners] at hone
      have hf1 : (if f1 = true then 1 else 0) ≤ (if f = true then 1 else 0) +
          (if s.holders.countP (fun h => h.2) = 0 then 1 else 0) := by
        subst h7
        cases ho : s.mgr.m_ptr.m_owned
        · have h0 : ¬ (0 < s.owners) := fun h0 => by
            have := h.owned h0
            rw [ho] at this
            cases this
          have h0 : s.holders.countP (fun h => h.2) = 0 := by
            simp only [system.owners] at h0
            omega
          cases f <;> simp [h0]
        · cases f <;> simp
      have hfle : (if f = true then 1 else 0) ≤ s.holders.countP (fun h => h.2) := by
        cases f
        · simp
        · have := flag_of_owner_counts c s.holders hfl
          simp only [if_true]
          omega
      exact {
        capacity_eq := by show m1.m_max_shared = _; rw [h1, h.capacity_eq]
        hook := by show hook_wires_only m1.m_callback; rw [h2]; exact h.hook
        slot_capacity := fun ha => by
          show m1.m_ptr.m_max_shared = _
          rw [h3]
          apply h.slot_capacity
          have ha : m1.m_ptr.m_ptr.isSome = true := ha
          rw [h5] at ha
          exact ha
        count := by
          show m1.m_ptr.m_shared = ((set_flag c f1 s.holders).length : Int)
          rw [h4, h.count, set_flag_length]
        active := by
          show m1.m_ptr.m_ptr.isSome = true ↔ set_flag c f1 s.holders ≠ []
          rw [h5]
          have := h.active
          simp only [resource_manager.to_bool, owner_ptr.to_bool] at this
          rw [this, ← List.length_pos, ← List.length_pos, set_flag_length]
        one_owner := by
          show (set_flag c f1 s.holders).countP (fun h => h.2) ≤ 1
          split_ifs at hf1 hfle hcount <;> omega
        owned := fun _ => h6 }

theorem release_consistent [Managed T] (capacity : Int) (s s1 : system T) (c : Nat)
    (out : Option Int) (h : s.consistent capacity)
    (hs : s.step (call.release c) = some (s1, out)) : s1.consistent capacity := by
  cases hfl : flag_of c s.holders with
  | none => simp [system.step, hfl] at hs
  | some f =>
    simp only [system.step, hfl, Option.some.injEq, Prod.mk.injEq] at hs
    obtain ⟨rfl, -⟩ := hs
    obtain ⟨h1, h2, h3, h4, h5, h6, -, -⟩ := release_frame s.mgr f
    have hlen := drop_holder_length c f s.holders hfl
    have hown := drop_holder_owners c f s.holders hfl
    have hone := h.one_owner
    simp only [system.owners] at hone
    have hcount := h.count
    have hne : s.holders ≠ [] := by
      intro h0
      rw [h0] at hfl
      simp [flag_of] at hfl
    have hact : s.mgr.m_ptr.m_ptr.isSome = true := h.active.mpr hne
    exact {
      capacity_eq := by show (s.mgr.release f).mgr.m_max_shared = _; rw [h1, h.capacity_eq]
      hook := by show hook_wires_only (s.mgr.release f).mgr.m_callback; rw [h2]; exact h.hook
      slot_capacity := fun _ => by
        show (s.mgr.release f).mgr.m_ptr.m_max_shared = _
        rw [h3]
        exact h.slot_capacity hact
      count := by
        show (s.mgr.release f).mgr.m_ptr.m_shared = ((drop_holder c s.holders).length : Int)
        rw [h4, hcount]
        omega
      active := by
        show (s.mgr.release f).mgr.m_ptr.m_ptr.isSome = true ↔ drop_holder c s.holders ≠ []
        rw [h5, ← List.length_pos]
        by_cases h0 : s.mgr.m_ptr.m_shared - 1 = 0
        · simp only [h0, if_true, Option.isSome_none, Bool.false_eq_true, false_iff]
          omega
        · simp only [h0, if_false, hact, true_iff]
          omega
      one_owner := by
        show (drop_holder c s.holders).countP (fun h => h.2) ≤ 1
        omega
      owned := fun h0 => by
        show (s.mgr.release f).mgr.m_ptr.m_owned = true
        have h0 : 0 < (drop_holder c s.holders).countP (fun h => h.2) := h0
        rw [h6]
        cases f
        · simp only [Bool.false_eq_true, if_false] at hown
          have : 0 < s.owners := by
            simp only [system.owners]
            omega
          simp [h.owned this]
        · simp only [if_true] at hown
          omega }

theorem step_consistent [Managed T] (capacity : Int) (s s1 : system T) (c : call T)
    (out : Option Int) (h : s.consistent capacity) (hs : s.step c = some (s1, out)) :
    s1.consistent capacity := by
  cases c with
  | acquire c obj => exact acquire_consistent capacity s s1 c obj out h hs
  | refresh c => exact refresh_consistent capacity s s1 c out h hs
  | release c => exact release_consistent capacity s s1 c out h hs

theorem run_consistent [Managed T] (capacity : Int) (cs : List (call T)) (s s1 : system T)
    (outs : List (Option Int)) (h : s.consistent capacity) (hs : s.run cs = some (s1, outs)) :
    s1.consistent capacity := by
  induction cs generalizing s outs with
  | nil =>
    simp only [system.run, Option.some.injEq, Prod.mk.injEq] at hs
    obtain ⟨rfl, -⟩ := hs
    exact h
  | cons c cs ih =>
    simp only [system.run] at hs
    cases hc : s.step c with
    | none => simp [hc] at hs
    | some r =>
      obtain ⟨s2, out⟩ := r
      simp only [hc] at hs
      cases hr : s2.run cs with
      | none => simp [hr] at hs
      | some r2 =>
        obtain ⟨s3, outs3⟩ := r2
        simp only [hr, Option.some.injEq, Prod.mk.injEq] at hs
        obtain ⟨rfl, -⟩ := hs
        exact ih s2 outs3 (step_consistent capacity s s2 c out h hc) hr

/-! ## The count and the capacity -/

/-- C1, at a concrete run: with capacity 2, three `make_or_reuse` calls in a row
(returning 1, 0, 0) leave `m_shared = 3`, above the capacity. -/
theorem shared_count_exceeds_capacity :
    ((system.start 2 none).run three_on_two).map (fun r => (r.1.mgr.m_ptr.m_shared, r.2)) =
      some (3, [some 1, some 0, some 0]) ∧ ¬ ((3 : Int) ≤ 2) := by
  decide

/-- C1, as the code has it: for every capacity `C > 0` and every run of
`make_or_reuse`, `update(me_owner)` and `release(me_owner)` calls from the empty
manager in which a handler releases only what it acquired, `m_shared` is after
every step the number of handlers that acquired and did not release yet, so
`0 ≤ m_shared`; and a `make_or_reuse` that returns a status other than 0 leaves
`m_shared < C`.  (A call that returns 0 is counted as well, which is how the
count gets above `C`.) -/
theorem shared_count_counts_holders [Managed T] (capacity : Int) (hcap : 0 < capacity)
    (callback : Option (owner_ptr T → owner_ptr T)) (hcb : hook_wires_only callback)
    (cs : List (call T)) (s : system T) (outs : List (Option Int))
    (hrun : (system.start capacity callback).run cs = some (s, outs)) :
    0 ≤ s.mgr.m_ptr.m_shared ∧ s.mgr.m_ptr.m_shared = s.holders.length ∧
    ∀ c obj s1 v, s.step (call.acquire c obj) = some (s1, some v) → v ≠ 0 →
      s1.mgr.m_ptr.m_shared < capacity := by
  have h := run_consistent capacity cs _ s outs (start_consistent capacity callback hcb) hrun
  refine ⟨by rw [h.count]; omega, h.count, ?_⟩
  intro c obj s1 v hs hv
  cases hfl : flag_of c s.holders with
  | some f => simp [system.step, hfl] at hs
  | none =>
    simp only [system.step, hfl] at hs
    by_cases ha : s.mgr.to_bool = true
    · rw [make_or_reuse_active s.mgr false obj ha] at hs
      simp only [Option.some.injEq, Prod.mk.injEq] at hs
      obtain ⟨rfl, rfl⟩ := hs
      show s.mgr.m_ptr.m_shared + 1 < capacity
      have hc := h.slot_capacity ha
      by_cases h2 : 0 < s.mgr.m_ptr.m_max_shared ∧
          s.mgr.m_ptr.m_max_shared ≤ s.mgr.m_ptr.m_shared + 1
      · simp [h2] at hv
      · have h3 : ¬ (s.mgr.m_ptr.m_max_shared ≤ s.mgr.m_ptr.m_shared + 1) :=
          fun h3 => h2 ⟨by omega, h3⟩
        omega
    · have ha : s.mgr.to_bool = false := by simpa using ha
      cases obj with
      | none =>
        rw [make_or_reuse_throws s.mgr false ha] at hs
        simp at hs
      | some p =>
        rw [make_or_reuse_empty s.mgr false p ha h.hook] at hs
        simp only [Option.some.injEq, Prod.mk.injEq] at hs
        obtain ⟨rfl, rfl⟩ := hs
        show (s.mgr.make_without_lock (some p)).mgr.m_ptr.m_shared < capacity
        rw [(make_without_lock_slot s.mgr p h.hook).2.2.2.2.1]
        have hc := h.capacity_eq
        by_cases h1 : s.mgr.m_max_shared = 1
        · simp [h1] at hv
        · omega

theorem shared_count_counts_holders_witness :
    (0 : Int) < 2 ∧ (system.start 2 none).run two_then_one = some (two_then_one_end, [some 1, some 0, some 0]) ∧
    two_then_one_end.mgr.m_ptr.m_shared = (two_then_one_end.holders.length : Int) :=
  ⟨by decide, rfl,
    (shared_count_counts_holders 2 (by decide) none hook_wires_only_none two_then_one
      two_then_one_end [some 1, some 0, some 0] rfl).2.1⟩

/-! ## One refresh driver -/

/-- C6: in every state reached from the empty manager by a run of
`make_or_reuse` (each handler starting with `me_owner = false`),
`update(me_owner)` and `release(me_owner)` calls, each handler passing its own
flag and releasing only what it acquired, at most one holder has `me_owner` set,
and whenever one has, `m_owned` is set. -/
theorem at_most_one_refresh_driver [Managed T] (capacity : Int)
    (callback : Option (owner_ptr T → owner_ptr T)) (hcb : hook_wires_only callback)
    (cs : List (call T)) (s : system T) (outs : List (Option Int))
    (hrun : (system.start capacity callback).run cs = some (s, outs)) :
    s.owners ≤ 1 ∧ (0 < s.owners → s.mgr.m_ptr.m_owned = true) := by
  have h := run_consistent capacity cs _ s outs (start_consistent capacity callback hcb) hrun
  exact ⟨h.one_owner, h.owned⟩

theorem at_most_one_refresh_driver_witness :
    (system.start 3 none).run handover =
      some (handover_end, [some 1, none, some 2, none, some 0, none]) ∧
    handover_end.owners ≤ 1 ∧ (0 < handover_end.owners → handover_end.mgr.m_ptr.m_owned = true) :=
  ⟨rfl, at_most_one_refresh_driver 3 none hook_wires_only_none handover handover_end
    [some 1, none, some 2, none, some 0, none] rfl⟩

/-! ## Many handlers on an unbounded manager -/

theorem run_append [Managed T] (cs ds : List (call T)) (s s1 s2 : system T)
    (o1 o2 : List (Option Int)) (h1 : s.run cs = some (s1, o1)) (h2 : s1.run ds = some (s2, o2)) :
    s.run (cs ++ ds) = some (s2, o1 ++ o2) := by
  induction cs generalizing s o1 with
  | nil =>
    simp only [system.run, Option.some.injEq, Prod.mk.injEq] at h1
    obtain ⟨rfl, rfl⟩ := h1
    simpa using h2
  | cons c cs ih =>
    simp only [system.run] at h1
    cases hc : s.step c with
    | none => simp [hc] at h1
    | some r =>
      obtain ⟨s3, out⟩ := r
      simp only [hc] at h1
      cases hr : s3.run cs with
      | none => simp [hr] at h1
      | some r2 =>
        obtain ⟨s4, o4⟩ := r2
        simp only [hr, Option.some.injEq, Prod.mk.injEq] at h1
        obtain ⟨rfl, rfl⟩ := h1
        have h3 : s3.run (cs.append ds) = some (s2, o4 ++ o2) := ih s3 o4 hr
        simp only [List.cons_append, system.run, hc, h3]

/-- On an active generation of unbounded capacity, handlers that are not yet
holders all join: each is returned 2 and only `m_shared` changes. -/
theorem joins_run [Managed T] (objs : Nat → Option T) (cs : List Nat) (s : system T)
    (hact : s.mgr.to_bool = true) (hcap : s.mgr.m_ptr.m_max_shared ≤ 0) (hnd : cs.Nodup)
    (hfresh : ∀ c ∈ cs, flag_of c s.holders = none) :
    s.run (cs.map (fun c => call.acquire c (objs c))) =
      some ({ mgr := { s.mgr with
                m_ptr := { s.mgr.m_ptr with m_shared := s.mgr.m_ptr.m_shared + cs.length } },
              holders := (cs.map (fun c => (c, false))).reverse ++ s.holders },
            List.replicate cs.length (some 2)) := by
  induction cs generalizing s with
  | nil =>
    simp only [List.map_nil, system.run, List.length_nil, Nat.cast_zero, add_zero,
      List.reverse_nil, List.nil_append, List.replicate_zero]
  | cons c cs ih =>
    have hfl : flag_of c s.holders = none := hfresh c (List.mem_cons_self c cs)
    have hnot : ¬ (0 < s.mgr.m_ptr.m_max_shared ∧
        s.mgr.m_ptr.m_max_shared ≤ s.mgr.m_ptr.m_shared + 1) := fun h => by omega
    have hstep : s.step (call.acquire c (objs c)) =
        some ({ mgr := { s.mgr with
                  m_ptr := { s.mgr.m_ptr with m_shared := s.mgr.m_ptr.m_shared + 1 } },
                holders := (c, false) :: s.holders }, some 2) := by
      simp only [system.step, hfl, make_or_reuse_active s.mgr false (objs c) hact, hnot,
        if_false]
      rfl
    have hnd2 : cs.Nodup := (List.nodup_cons.mp hnd).2
    have hc : c ∉ cs := (List.nodup_cons.mp hnd).1
    have hfresh2 : ∀ d ∈ cs, flag_of d ((c, false) :: s.holders) = none := by
      intro d hd
      have hne : ¬ (c = d) := fun h => hc (h ▸ hd)
      rw [flag_of, if_neg hne]
      exact hfresh d (List.mem_cons_of_mem c hd)
    have := ih { mgr := { s.mgr with
                   m_ptr := { s.mgr.m_ptr with m_shared := s.mgr.m_ptr.m_shared + 1 } },
                 holders := (c, false) :: s.holders } hact hcap hnd2 hfresh2
    simp only [List.map_cons, system.run, hstep, this, List.length_cons, List.replicate_succ,
      List.reverse_cons, List.append_assoc, List.singleton_append, Nat.cast_add, Nat.cast_one,
      Option.some.injEq, Prod.mk.injEq, and_true]
    congr 3
    omega

/-- The first call on the empty manager of unbounded capacity: the caller
becomes the only holder, with its flag set, and is returned 1. -/
theorem first_call_creates [Managed T] (capacity : Int) (hcap : capacity ≤ 0)
    (callback : Option (owner_ptr T → owner_ptr T)) (hcb : hook_wires_only callback)
    (x : T) (c0 : Nat) :
    (system.start capacity callback).step (call.acquire c0 (some x)) =
      some ({ mgr := (x_creates capacity callback x).mgr, holders := [(c0, true)] }, some 1) ∧
    (x_creates capacity callback x).mgr.to_bool = true ∧
    (x_creates capacity callback x).mgr.m_ptr.m_max_shared ≤ 0 ∧
    (x_creates capacity callback x).mgr.m_ptr.m_shared = 1 ∧
    (callback = none → (x_creates capacity callback x).mgr.m_ptr.m_ptr = some x) := by
  have hempty : (resource_manager.configured capacity callback : resource_manager T).to_bool
      = false := rfl
  have hc := make_or_reuse_empty (resource_manager.configured capacity callback) false x
    hempty hcb
  obtain ⟨-, -, -, h4, h5, -, h7, h8⟩ :=
    make_without_lock_slot (resource_manager.configured capacity callback) x hcb
  have hxeq : x_creates capacity callback x = _ := hc
  have hne : ¬ ((resource_manager.configured capacity callback :
      resource_manager T).m_max_shared = 1) := by
    show ¬ (capacity = 1)
    omega
  refine ⟨?_, ?_, ?_, ?_, ?_⟩
  · simp only [system.step, system.start, flag_of, hc, hne, if_false]
    rw [hxeq]
  · rw [hxeq]; exact h7
  · rw [hxeq]
    show ((resource_manager.configured capacity callback).make_without_lock
      (some x)).mgr.m_ptr.m_max_shared ≤ 0
    rw [h4]
    exact hcap
  · rw [hxeq]; exact h5
  · rw [hxeq]; exact h8

/-- The run in which one handler creates and further distinct handlers join,
on a manager of unbounded capacity. -/
theorem one_create_others_join_aux [Managed T] (capacity : Int) (hcap : capacity ≤ 0)
    (callback : Option (owner_ptr T → owner_ptr T)) (hcb : hook_wires_only callback)
    (x : T) (objs : Nat → Option T) (c0 : Nat) (cs : List Nat) (hnd : (c0 :: cs).Nodup) :
    (system.start capacity callback).run
        (call.acquire c0 (some x) :: cs.map (fun c => call.acquire c (objs c))) =
      some ({ mgr := { (x_creates capacity callback x).mgr with
                m_ptr := { (x_creates capacity callback x).mgr.m_ptr with
                  m_shared := 1 + cs.length } },
              holders := (cs.map (fun c => (c, false))).reverse ++ [(c0, true)] },
            some 1 :: List.replicate cs.length (some 2)) := by
  obtain ⟨h1, h2, h3, h4, -⟩ := first_call_creates capacity hcap callback hcb x c0
  have hfresh : ∀ d ∈ cs, flag_of d [(c0, true)] = none := by
    intro d hd
    have hne : ¬ (c0 = d) := fun h => (List.nodup_cons.mp hnd).1 (h ▸ hd)
    simp [flag_of, hne]
  have hj := joins_run objs cs
    { mgr := (x_creates capacity callback x).mgr, holders := [(c0, true)] } h2 h3
    (List.nodup_cons.mp hnd).2 hfresh
  simp only [system.run, h1, hj, h4]

/-- No call of a handler changes the configured callback. -/
theorem run_callback [Managed T] (cs : List (call T)) (s s1 : system T)
    (outs : List (Option Int)) (hs : s.run cs = some (s1, outs)) :
    s1.mgr.m_callback = s.mgr.m_callback := by
  induction cs generalizing s outs with
  | nil =>
    simp only [system.run, Option.some.injEq, Prod.mk.injEq] at hs
    rw [← hs.1]
  | cons c cs ih =>
    simp only [system.run] at hs
    cases hc : s.step c with
    | none => simp [hc] at hs
    | some r =>
      obtain ⟨s2, out⟩ := r
      simp only [hc] at hs
      cases hr : s2.run cs with
      | none => simp [hr] at hs
      | some r2 =>
        obtain ⟨s3, outs3⟩ := r2
        simp only [hr, Option.some.injEq, Prod.mk.injEq] at hs
        obtain ⟨rfl, -⟩ := hs
        rw [ih s2 outs3 hr]
        cases c with
        | acquire c obj =>
          cases hfl : flag_of c s.holders with
          | some f => simp [system.step, hfl] at hc
          | none =>
            simp only [system.step, hfl] at hc
            cases hv : (s.mgr.make_or_reuse false obj).value with
            | none =>
              simp only [hv, Option.some.injEq, Prod.mk.injEq] at hc
              rw [← hc.1]
              exact make_or_reuse_callback s.mgr false obj
            | some v =>
              simp only [hv, Option.some.injEq, Prod.mk.injEq] at hc
              rw [← hc.1]
              exact make_or_reuse_callback s.mgr false obj
        | refresh c =>
          cases hfl : flag_of c s.holders with
          | none => simp [system.step, hfl] at hc
          | some f =>
            simp only [system.step, hfl] at hc
            cases hu : s.mgr.update f with
            | none => simp [hu] at hc
            | some r =>
              obtain ⟨m1, f1⟩ := r
              simp only [hu, Option.some.injEq, Prod.mk.injEq] at hc
              rw [← hc.1]
              exact (update_frame s.mgr m1 f f1 hu).2.1
        | release c =>
          cases hfl : flag_of c s.holders with
          | none => simp [system.step, hfl] at hc
          | some f =>
            simp only [system.step, hfl, Option.some.injEq, Prod.mk.injEq] at hc
            rw [← hc.1]
            exact (release_frame s.mgr f).2.1

/-! ## One create, all others join -/

/-- C10: with unbounded capacity (`≤ 0`), let `n ≥ 1` distinct handlers
`c0 :: cs` call `make_or_reuse` on the empty manager in this order, `x` being the
object the first one constructs.  The first call returns 1, the other `n - 1`
calls return 2; the first handler alone ends with `me_owner` set; and the
manager is the one left by the first call with `m_shared = n`: the object is the
one constructed for the first caller, whatever the constructors of the others
would have done (`objs`). -/
theorem one_create_others_join [Managed T] (capacity : Int) (hcap : capacity ≤ 0)
    (callback : Option (owner_ptr T → owner_ptr T)) (hcb : hook_wires_only callback)
    (x : T) (objs : Nat → Option T) (c0 : Nat) (cs : List Nat) (hnd : (c0 :: cs).Nodup) :
    (system.start capacity callback).run
        (call.acquire c0 (some x) :: cs.map (fun c => call.acquire c (objs c))) =
      some ({ mgr := { (x_creates capacity callback x).mgr with
                m_ptr := { (x_creates capacity callback x).mgr.m_ptr with
                  m_shared := 1 + cs.length } },
              holders := (cs.map (fun c => (c, false))).reverse ++ [(c0, true)] },
            some 1 :: List.replicate cs.length (some 2)) ∧
    (x_creates capacity callback x).mgr.to_bool = true ∧
    (callback = none → (x_creates capacity callback x).mgr.m_ptr.m_ptr = some x) := by
  obtain ⟨-, h2, -, -, h5⟩ := first_call_creates capacity hcap callback hcb x c0
  exact ⟨one_create_others_join_aux capacity hcap callback hcb x objs c0 cs hnd, h2, h5⟩

theorem one_create_others_join_witness :
    ((system.start (-1) (some install_detector)).run
        (call.acquire 0 (some (camera.open 0)) ::
          (List.range' 1 99).map (fun c => call.acquire c none))).map
      (fun r => (r.1.mgr.m_ptr.m_shared, r.1.mgr.m_ptr.m_ptr, r.1.owners, r.2)) =
    some (100, some { index := 0, frames := 0, installed := true }, 1,
      some 1 :: List.replicate 99 (some 2)) := by
  rw [(one_create_others_join (-1) (by decide) (some install_detector) hook_wires_only_install
    (camera.open 0) (fun _ => none) 0 (List.range' 1 99) (List.nodup_range' 0 100)).1]
  simp [system.owners, List.countP_append, List.countP_reverse, List.countP_map, x_creates,
    resource_manager.configured, resource_manager.init, resource_manager.set_max_shared,
    resource_manager.make_or_reuse, resource_manager.make_without_lock, owner_ptr.to_bool,
    owner_ptr.null, owner_ptr.move_assign, owner_ptr.swap, make_owner, owner_ptr.of_pointer,
    owner_ptr.set_max_shared, install_detector, camera.open]

/-! ## Round trip -/

theorem flag_of_isSome_of_mem (c : Nat) (hs : List (Nat × Bool)) (h : c ∈ hs.map Prod.fst) :
    ∃ f, flag_of c hs = some f := by
  induction hs with
  | nil => simp at h
  | cons a hs ih =>
    by_cases hc : a.1 = c
    · exact ⟨a.2, by rw [flag_of, if_pos hc]⟩
    · have h2 : c ∈ hs.map Prod.fst := by
        simp only [List.map_cons, List.mem_cons] at h
        rcases h with h | h
        · exact absurd h.symm hc
        · exact h
      obtain ⟨f, hf⟩ := ih h2
      exact ⟨f, by rw [flag_of, if_neg hc, hf]⟩

/-- When all holders release, each exactly once and in any order, every
`release` but the last returns 0, the last returns 1, and no holder is left. -/
theorem release_all [Managed T] (capacity : Int) (rs : List Nat) (s : system T)
    (h : s.consistent capacity) (hnd : rs.Nodup)
    (hall : ∀ c ∈ rs, ∃ f, flag_of c s.holders = some f) (hlen : s.holders.length = rs.length) :
    ∃ s1 outs, s.run (rs.map call.release) = some (s1, outs) ∧ s1.consistent capacity ∧
      s1.holders = [] ∧
      ∀ n, rs.length = n + 1 → outs = List.replicate n (some 0) ++ [some 1] := by
  induction rs generalizing s with
  | nil =>
    refine ⟨s, [], rfl, h, List.length_eq_zero.mp hlen, ?_⟩
    intro n hn
    simp at hn
  | cons c rs ih =>
    obtain ⟨f, hfl⟩ := hall c (List.mem_cons_self c rs)
    have hstep : s.step (call.release c) =
        some ({ mgr := (s.mgr.release f).mgr, holders := drop_holder c s.holders },
          some (s.mgr.release f).value) := by
      simp only [system.step, hfl]
    have hcons := release_consistent capacity s _ c _ h hstep
    have hdrop := drop_holder_length c f s.holders hfl
    have hnd2 : rs.Nodup := (List.nodup_cons.mp hnd).2
    have hc : c ∉ rs := (List.nodup_cons.mp hnd).1
    have hall2 : ∀ d ∈ rs, ∃ g, flag_of d (drop_holder c s.holders) = some g := by
      intro d hd
      have hne : d ≠ c := fun h => hc (h ▸ hd)
      rw [flag_of_drop_holder c d s.holders hne]
      exact hall d (List.mem_cons_of_mem c hd)
    have hlen2 : (drop_holder c s.holders).length = rs.length := by
      simp only [List.length_cons] at hlen
      omega
    obtain ⟨s1, outs, hrun, hs1, hnil, houts⟩ :=
      ih { mgr := (s.mgr.release f).mgr, holders := drop_holder c s.holders } hcons hnd2 hall2
        hlen2
    refine ⟨s1, some (s.mgr.release f).value :: outs, ?_, hs1, hnil, ?_⟩
    · simp only [List.map_cons, system.run, hstep, hrun]
    · intro n hn
      have hne : s.holders ≠ [] := by
        intro h0
        rw [h0] at hlen
        simp at hlen
      have hact : s.mgr.m_ptr.m_ptr.isSome = true := h.active.mpr hne
      have hcount := h.count
      have hval := (release_frame s.mgr f).2.2.2.2.2.2.2
      simp only [List.length_cons] at hn hlen
      cases n with
      | zero =>
        have h0 : rs = [] := List.length_eq_zero.mp (by omega)
        subst h0
        simp only [List.map_nil, system.run, Option.some.injEq, Prod.mk.injEq] at hrun
        have h1 : s.mgr.m_ptr.m_shared - 1 = 0 := by
          simp only [List.length_nil] at hlen
          rw [hcount, hlen]
          rfl
        rw [hval, ← hrun.2]
        simp [h1, hact]
      | succ n =>
        have h1 : ¬ (s.mgr.m_ptr.m_shared - 1 = 0) := by
          rw [hcount, hlen]
          omega
        rw [hval, houts n (by omega)]
        simp [h1, List.replicate_succ]

/-- C9: with unbounded capacity (`≤ 0`), let handler `c0` create and the `N`
distinct handlers `cs` join, and then let all `N + 1` holders release, each once
with its own flag, in any order `rs`.  The calls return 1, then `N` times 2,
then `N` times 0 (nothing destroyed) and a final 1 (destroyed); the manager is
left without generation (`operator bool` false, `m_shared = 0`, no holder), and
a following `make_or_reuse` constructs a new object `y`, sets the caller's flag
and returns 1, leaving `m_shared = 1`. -/
theorem create_join_release_round_trip [Managed T] (capacity : Int) (hcap : capacity ≤ 0)
    (callback : Option (owner_ptr T → owner_ptr T)) (hcb : hook_wires_only callback)
    (x y : T) (objs : Nat → Option T) (c0 : Nat) (cs : List Nat) (hnd : (c0 :: cs).Nodup)
    (rs : List Nat) (hperm : rs.Perm (c0 :: cs)) :
    ∃ s, (system.start capacity callback).run
        ((call.acquire c0 (some x) :: cs.map (fun c => call.acquire c (objs c))) ++
          rs.map call.release) =
        some (s, (some 1 :: List.replicate cs.length (some 2)) ++
          (List.replicate cs.length (some 0) ++ [some 1])) ∧
      s.mgr.to_bool = false ∧ s.mgr.m_ptr.m_shared = 0 ∧ s.holders = [] ∧
      s.mgr.make_or_reuse false (some y) =
        { mgr := (s.mgr.make_without_lock (some y)).mgr, me_owner := true, value := some 1 } ∧
      (s.mgr.make_without_lock (some y)).mgr.to_bool = true ∧
      (s.mgr.make_without_lock (some y)).mgr.m_ptr.m_shared = 1 ∧
      (callback = none → (s.mgr.make_without_lock (some y)).mgr.m_ptr.m_ptr = some y) := by
  have hacq := (one_create_others_join_aux capacity hcap callback hcb x objs c0 cs hnd)
  have hcons := run_consistent capacity _ _ _ _ (start_consistent capacity callback hcb) hacq
  have hnd2 : rs.Nodup := hperm.nodup_iff.mpr hnd
  have hlen : rs.length = cs.length + 1 := by rw [hperm.length_eq]; rfl
  have hall : ∀ c ∈ rs, ∃ f, flag_of c
      ((cs.map (fun c => (c, false))).reverse ++ [(c0, true)]) = some f := by
    intro c hc
    apply flag_of_isSome_of_mem
    have hc2 : c ∈ c0 :: cs := hperm.mem_iff.mp hc
    simp only [List.map_append, List.map_reverse, List.map_map, List.mem_append,
      List.mem_reverse, List.map_cons, List.map_nil, List.mem_singleton]
    simp only [List.mem_cons] at hc2
    rcases hc2 with h | h
    · exact Or.inr h
    · exact Or.inl (List.mem_map.mpr ⟨c, h, rfl⟩)
  obtain ⟨s1, outs, hrun, hs1, hnil, houts⟩ := release_all capacity rs _ hcons hnd2 hall
    (by simp [hlen])
  have houts2 := houts cs.length hlen
  subst houts2
  have hempty : s1.mgr.to_bool = false := by
    cases hb : s1.mgr.to_bool
    · rfl
    · exact absurd hnil (hs1.active.mp hb)
  have hne : ¬ (s1.mgr.m_max_shared = 1) := by
    rw [hs1.capacity_eq]
    omega
  obtain ⟨-, -, -, -, h5, -, h7, h8⟩ := make_without_lock_slot s1.mgr y hs1.hook
  refine ⟨s1, run_append _ _ _ _ _ _ _ hacq hrun, hempty, ?_, hnil, ?_, h7, h5, ?_⟩
  · rw [hs1.count, hnil]; rfl
  · rw [make_or_reuse_empty s1.mgr false y hempty hs1.hook]
    simp [hne]
  · intro hcb0
    apply h8
    have hk := run_callback _ _ _ _ hacq
    have hk2 := run_callback _ _ _ _ hrun
    rw [hk2, hk, hcb0]
    rfl

theorem create_join_release_round_trip_witness :
    ((system.start 0 none).run
        ([call.acquire 0 (some (camera.open 0)), call.acquire 1 none, call.acquire 2 none] ++
          [call.release 1, call.release 0, call.release 2])).map
      (fun r => (r.1.mgr.to_bool, r.1.mgr.m_ptr.m_shared, r.2,
        (r.1.mgr.make_or_reuse false (some (camera.open 1))).value,
        (r.1.mgr.make_or_reuse false (some (camera.open 1))).mgr.m_ptr.m_ptr)) =
    some (false, 0, [some 1, some 2, some 2, some 0, some 0, some 1], some 1,
      some (camera.open 1)) := by
  obtain ⟨s, h1, h2, h3, -, h5, -, -, h8⟩ :=
    create_join_release_round_trip 0 (by decide) none hook_wires_only_none (camera.open 0)
      (camera.open 1) (fun _ => none) 0 [1, 2] (by decide) [1, 0, 2] (by decide)
  have h1b : (system.start 0 none).run
      ([call.acquire 0 (some (camera.open 0)), call.acquire 1 none, call.acquire 2 none] ++
        [call.release 1, call.release 0, call.release 2]) =
      some (s, [some 1, some 2, some 2, some 0, some 0, some 1]) := h1
  rw [h1b]
  simp only [Option.map_some', h2, h3, h5, h8 rfl]

/-! ## Construction failure -/

/-- C11: when `new T` throws during `make_or_reuse` on a manager without
generation, the exception leaves the call (no value is returned) and the manager
and the caller's `me_owner` are exactly as before, whatever the callback is (it
does not run): there is still no generation, `m_shared` is still 0 if it was, a
handler making the call is not recorded as a holder, and any later
`make_or_reuse` behaves as it would have without the failed call. -/
theorem failed_construction_changes_nothing [Managed T] (m : resource_manager T) (me_owner : Bool)
    (hempty : m.to_bool = false) :
    m.make_or_reuse me_owner none = { mgr := m, me_owner := me_owner, value := none } ∧
    (m.make_or_reuse me_owner none).mgr.to_bool = false ∧
    (m.m_ptr.m_shared = 0 → (m.make_or_reuse me_owner none).mgr.m_ptr.m_shared = 0) ∧
    (∀ g obj, (m.make_or_reuse me_owner none).mgr.make_or_reuse g obj = m.make_or_reuse g obj) ∧
    (∀ capacity callback c, (system.start capacity callback : system T).step (call.acquire c none) =
      some (system.start capacity callback, none)) := by
  have h := make_or_reuse_throws m me_owner hempty
  refine ⟨h, ?_, ?_, ?_, ?_⟩
  · rw [h]; exact hempty
  · intro h0; rw [h]; exact h0
  · intro g obj; rw [h]
  · intro capacity callback c
    have h2 := make_or_reuse_throws (resource_manager.configured capacity callback :
      resource_manager T) false rfl
    simp only [system.step, system.start, flag_of, h2]

theorem failed_construction_changes_nothing_witness :
    (resource_manager.configured 4 (some counting_hook)).to_bool = false ∧
    ((resource_manager.configured 4 (some counting_hook)).make_or_reuse false none).value = none ∧
    ((resource_manager.configured 4 (some counting_hook)).make_or_reuse false none).mgr.m_ptr.m_shared
      = 0 ∧
    (((resource_manager.configured 4 (some counting_hook)).make_or_reuse false none).mgr.make_or_reuse
      false (some (camera.open 0))).mgr.m_ptr.m_shared = 2 :=
  have h := failed_construction_changes_nothing (resource_manager.configured 4 (some counting_hook))
    false (by decide)
  ⟨by decide, by rw [h.1], h.2.2.1 (by decide), by rw [h.2.2.2.1]; decide⟩

/-! ## Keeping warm -/

/-- The slot right after `make_and_keep` succeeded: the configured capacity is
back, the slot carries the capacity raised by one, and what `m_ptr` held before
is destroyed. -/
theorem make_and_keep_slot (m : resource_manager T) (p : T)
    (hcb : hook_wires_only m.m_callback) :
    (m.make_and_keep (some p)).returned = true ∧
    (m.make_and_keep (some p)).mgr.m_max_shared = m.m_max_shared ∧
    (m.make_and_keep (some p)).mgr.m_callback = m.m_callback ∧
    (m.make_and_keep (some p)).mgr.m_ptr.m_max_shared = m.m_max_shared + 1 ∧
    (m.make_and_keep (some p)).mgr.m_ptr.m_shared = 1 ∧
    (m.make_and_keep (some p)).mgr.m_ptr.m_owned = true ∧
    (m.make_and_keep (some p)).mgr.m_ptr.m_ptr.isSome = true ∧
    (m.m_callback = none → (m.make_and_keep (some p)).mgr.m_ptr.m_ptr = some p) ∧
    (m.make_and_keep (some p)).destroyed = m.m_ptr.m_ptr := by
  obtain ⟨h1, h2, h3, h4, h5, h6, h7, h8⟩ :=
    make_without_lock_slot { m with m_max_shared := m.m_max_shared + 1 } p hcb
  have hr : (m.make_and_keep (some p)) =
      { mgr := { ({ m with m_max_shared := m.m_max_shared + 1 } : resource_manager T).make_without_lock
                  (some p) |>.mgr with
                  m_max_shared := (({ m with m_max_shared := m.m_max_shared + 1 } :
                    resource_manager T).make_without_lock (some p)).mgr.m_max_shared - 1 },
        destroyed := (({ m with m_max_shared := m.m_max_shared + 1 } :
          resource_manager T).make_without_lock (some p)).destroyed,
        returned := true } := by
    simp only [resource_manager.make_and_keep, resource_manager.make, h1, if_true]
  rw [hr]
  refine ⟨rfl, ?_, h3, h4, h5, h6, h7, h8, ?_⟩
  · show (({ m with m_max_shared := m.m_max_shared + 1 } :
      resource_manager T).make_without_lock (some p)).mgr.m_max_shared - 1 = m.m_max_shared
    rw [h2]
    show m.m_max_shared + 1 - 1 = m.m_max_shared
    omega
  · simp [resource_manager.make_without_lock, owner_ptr.move_assign, owner_ptr.swap]

theorem warm_pinned (capacity : Int) (callback : Option (owner_ptr T → owner_ptr T))
    (hcb : hook_wires_only callback) (p : T) :
    ∃ t, (system.warm capacity callback p).pinned t := by
  obtain ⟨-, -, -, -, h5, h6, h7, -, -⟩ :=
    make_and_keep_slot (resource_manager.configured capacity callback) p hcb
  obtain ⟨t, ht⟩ := Option.isSome_iff_exists.mp h7
  exact ⟨t, { object := ht, count := by rw [system.warm]; rw [h5]; rfl, owned := h6,
              no_owner := rfl }⟩

theorem step_pinned [Managed T] (t : T) (s s1 : system T) (c : call T) (out : Option Int)
    (h : s.pinned t) (hs : s.step c = some (s1, out)) :
    s1.pinned t ∧ (∀ d, c = call.release d → out = some 0) := by
  have hact : s.mgr.to_bool = true := by
    simp [resource_manager.to_bool, owner_ptr.to_bool, h.object]
  cases c with
  | acquire c obj =>
    refine ⟨?_, fun d hd => by cases hd⟩
    cases hfl : flag_of c s.holders with
    | some f => simp [system.step, hfl] at hs
    | none =>
      simp only [system.step, hfl] at hs
      rw [make_or_reuse_active s.mgr false obj hact] at hs
      simp only [Option.some.injEq, Prod.mk.injEq] at hs
      obtain ⟨rfl, -⟩ := hs
      exact {
        object := h.object
        count := by
          show s.mgr.m_ptr.m_shared + 1 = _
          rw [h.count]; simp
        owned := h.owned
        no_owner := by
          have := h.no_owner
          simpa [system.owners, List.countP_cons] using this }
  | refresh c =>
    refine ⟨?_, fun d hd => by cases hd⟩
    cases hfl : flag_of c s.holders with
    | none => simp [system.step, hfl] at hs
    | some f =>
      have hf : f = false := by
        cases f
        · rfl
        · have := flag_of_owner_counts c s.holders hfl
          have h0 := h.no_owner
          simp only [system.owners] at h0
          omega
      subst hf
      simp only [system.step, hfl, update_not_owner s.mgr h.owned, Option.some.injEq,
        Prod.mk.injEq] at hs
      obtain ⟨rfl, -⟩ := hs
      rw [set_flag_same c false s.holders hfl]
      exact h
  | release c =>
    cases hfl : flag_of c s.holders with
    | none => simp [system.step, hfl] at hs
    | some f =>
      simp only [system.step, hfl, Option.some.injEq, Prod.mk.injEq] at hs
      obtain ⟨rfl, rfl⟩ := hs
      obtain ⟨-, -, -, h4, h5, h6, -, h8⟩ := release_frame s.mgr f
      have hlen := drop_holder_length c f s.holders hfl
      have hown := drop_holder_owners c f s.holders hfl
      have h0 := h.no_owner
      simp only [system.owners] at h0
      have hcount := h.count
      have hne : ¬ (s.mgr.m_ptr.m_shared - 1 = 0) := by omega
      have hf : f = false := by
        cases f
        · rfl
        · simp only [if_true] at hown
          omega
      subst hf
      refine ⟨{ object := ?_, count := ?_, owned := ?_, no_owner := ?_ }, ?_⟩
      · show (s.mgr.release false).mgr.m_ptr.m_ptr = some t
        rw [h5, if_neg hne, h.object]
      · show (s.mgr.release false).mgr.m_ptr.m_shared = ((drop_holder c s.holders).length : Int) + 1
        rw [h4, hcount]
        omega
      · show (s.mgr.release false).mgr.m_ptr.m_owned = true
        rw [h6, h.owned]; rfl
      · show (drop_holder c s.holders).countP (fun h => h.2) = 0
        simp only [Bool.false_eq_true, if_false] at hown
        omega
      · intro d _
        rw [h8]
        simp [hne]

theorem run_pinned [Managed T] (t : T) (cs : List (call T)) (s s1 : system T)
    (outs : List (Option Int)) (h : s.pinned t) (hs : s.run cs = some (s1, outs)) :
    s1.pinned t := by
  induction cs generalizing s outs with
  | nil =>
    simp only [system.run, Option.some.injEq, Prod.mk.injEq] at hs
    obtain ⟨rfl, -⟩ := hs
    exact h
  | cons c cs ih =>
    simp only [system.run] at hs
    cases hc : s.step c with
    | none => simp [hc] at hs
    | some r =>
      obtain ⟨s2, out⟩ := r
      simp only [hc] at hs
      cases hr : s2.run cs with
      | none => simp [hr] at hs
      | some r2 =>
        obtain ⟨s3, outs3⟩ := r2
        simp only [hr, Option.some.injEq, Prod.mk.injEq] at hs
        obtain ⟨rfl, -⟩ := hs
        exact ih s2 outs3 (step_pinned t s s2 c out h hc).1 hr

/-- C12: `make_and_keep` on the configured (empty) manager yields an active
generation with `m_shared = 1`.  From there, after every run of `make_or_reuse`,
`update(me_owner)` and `release(me_owner)` calls by handlers, each releasing only
what it acquired, the generation is still active with `m_shared ≥ 1` and the very
same object, and whichever handler releases next is returned 0 (nothing is
destroyed). -/
theorem keep_warm_pins_generation [Managed T] (capacity : Int)
    (callback : Option (owner_ptr T → owner_ptr T)) (hcb : hook_wires_only callback) (p : T)
    (cs : List (call T)) (s : system T) (outs : List (Option Int))
    (hrun : (system.warm capacity callback p).run cs = some (s, outs)) :
    (system.warm capacity callback p).mgr.to_bool = true ∧
    (system.warm capacity callback p).mgr.m_ptr.m_shared = 1 ∧
    (callback = none → (system.warm capacity callback p).mgr.m_ptr.m_ptr = some p) ∧
    s.mgr.to_bool = true ∧ 1 ≤ s.mgr.m_ptr.m_shared ∧
    s.mgr.m_ptr.m_ptr = (system.warm capacity callback p).mgr.m_ptr.m_ptr ∧
    ∀ c s1 out, s.step (call.release c) = some (s1, out) → out = some 0 := by
  obtain ⟨-, -, -, -, h5, -, h7, h8, -⟩ :=
    make_and_keep_slot (resource_manager.configured capacity callback) p hcb
  obtain ⟨t, ht⟩ := warm_pinned capacity callback hcb p
  have hs := run_pinned t cs _ s outs ht hrun
  refine ⟨h7, h5, h8, ?_, ?_, ?_, ?_⟩
  · simp [resource_manager.to_bool, owner_ptr.to_bool, hs.object]
  · rw [hs.count]; omega
  · rw [hs.object, ht.object]
  · intro c s1 out hstep
    exact (step_pinned t s s1 (call.release c) out hs hstep).2 c rfl

theorem keep_warm_pins_generation_witness :
    (system.warm 2 (some install_detector) (camera.open 0)).run visitors =
      some (visitors_end, [some 2, none, some 0, some 0, none, some 0]) ∧
    visitors_end.mgr.to_bool = true ∧ 1 ≤ visitors_end.mgr.m_ptr.m_shared ∧
    visitors_end.mgr.m_ptr.m_ptr =
      (system.warm 2 (some install_detector) (camera.open 0)).mgr.m_ptr.m_ptr :=
  have h := keep_warm_pins_generation 2 (some install_detector) hook_wires_only_install
    (camera.open 0) visitors visitors_end [some 2, none, some 0, some 0, none, some 0] rfl
  ⟨rfl, h.2.2.2.1, h.2.2.2.2.1, h.2.2.2.2.2.1⟩

/-- C13, on the code: when `new T` throws inside `make_and_keep`, the exception
leaves the call after `++m_max_shared` and before `--m_max_shared`, so the
configured capacity stays raised by one (with capacity 4: 5 afterwards), while a
`make_and_keep` that returns leaves it as it was. -/
theorem make_and_keep_throw_leaves_capacity_raised (m : resource_manager T) :
    (m.make_and_keep none).returned = false ∧
    (m.make_and_keep none).mgr.m_max_shared = m.m_max_shared + 1 ∧
    (m.make_and_keep none).mgr.m_ptr = m.m_ptr ∧
    main_manager.m_max_shared = 4 ∧
    (main_manager.make_and_keep none).mgr.m_max_shared = 5 ∧
    (main_manager.make_and_keep (some (camera.open 0))).mgr.m_max_shared = 4 := by
  refine ⟨?_, ?_, ?_, by decide, by decide, by decide⟩ <;>
    simp [resource_manager.make_and_keep, resource_manager.make,
      resource_manager.make_without_lock]

/-- C14, on the code: with the configured capacity 0, `make_and_keep` builds the
slot with capacity 1, so that `reached()` holds right away and the next
`make_or_reuse` returns 0, the configured capacity being 0 all along.  With the
default capacity -1, two `make_and_keep` calls that throw leave the configured
capacity at 1, and the next `make_or_reuse` creates and returns 0. -/
theorem keep_warm_bounds_the_unbounded :
    (resource_manager.configured 0 none : resource_manager camera).m_max_shared = 0 ∧
    warm_at_zero.m_max_shared = 0 ∧ warm_at_zero.m_ptr.m_max_shared = 1 ∧
    warm_at_zero.m_ptr.reached = true ∧
    (warm_at_zero.make_or_reuse false (some (camera.open 0))).value = some 0 ∧
    (resource_manager.init : resource_manager camera).m_max_shared = -1 ∧
    twice_failed.m_max_shared = 1 ∧
    (twice_failed.make_or_reuse false (some (camera.open 0))).value = some 0 ∧
    (twice_failed.make_or_reuse false (some (camera.open 0))).mgr.m_ptr.reached = true := by
  decide

/-! ## The slot invariant -/

theorem start_counted (capacity : Int) (callback : Option (owner_ptr T → owner_ptr T))
    (hcb : hook_wires_only callback) : (system.start capacity callback : system T).counted where
  hook := hcb
  count := Or.inl rfl
  active := by
    simp [system.start, resource_manager.configured, resource_manager.init,
      resource_manager.to_bool, owner_ptr.to_bool, owner_ptr.null, resource_manager.set_max_shared]

theorem step_counted [Managed T] (s s1 : system T) (c : call T) (out : Option Int)
    (h : s.counted) (hs : s.step c = some (s1, out)) : s1.counted := by
  have hcount := h.count
  have hactive := h.active
  simp only [resource_manager.to_bool, owner_ptr.to_bool] at hactive
  cases c with
  | acquire c obj =>
    cases hfl : flag_of c s.holders with
    | some f => simp [system.step, hfl] at hs
    | none =>
      simp only [system.step, hfl] at hs
      by_cases ha : s.mgr.to_bool = true
      · rw [make_or_reuse_active s.mgr false obj ha] at hs
        simp only [Option.some.injEq, Prod.mk.injEq] at hs
        obtain ⟨rfl, -⟩ := hs
        have hpos : 0 < s.mgr.m_ptr.m_shared := hactive.mp ha
        exact {
          hook := h.hook
          count := by
            show s.mgr.m_ptr.m_shared + 1 = (((c, false) :: s.holders).length : Int) ∨
              s.mgr.m_ptr.m_shared + 1 = (((c, false) :: s.holders).length : Int) + 1
            simp only [List.length_cons, Nat.cast_add, Nat.cast_one]
            omega
          active := by
            show s.mgr.m_ptr.m_ptr.isSome = true ↔ 0 < s.mgr.m_ptr.m_shared + 1
            constructor
            · intro _; omega
            · intro _; exact ha }
      · have ha : s.mgr.to_bool = false := by simpa using ha
        cases obj with
        | none =>
          rw [make_or_reuse_throws s.mgr false ha] at hs
          simp only [Option.some.injEq, Prod.mk.injEq] at hs
          obtain ⟨rfl, -⟩ := hs
          exact h
        | some p =>
          have hnpos : ¬ (0 < s.mgr.m_ptr.m_shared) := fun h0 => by
            have := hactive.mpr h0
            simp only [resource_manager.to_bool, owner_ptr.to_bool] at ha
            rw [ha] at this
            cases this
          have hlen : s.holders.length = 0 := by omega
          rw [make_or_reuse_empty s.mgr false p ha h.hook] at hs
          simp only [Option.some.injEq, Prod.mk.injEq] at hs
          obtain ⟨rfl, -⟩ := hs
          obtain ⟨-, -, h3, -, h5, -, h7, -⟩ := make_without_lock_slot s.mgr p h.hook
          exact {
            hook := by
              show hook_wires_only (s.mgr.make_without_lock (some p)).mgr.m_callback
              rw [h3]; exact h.hook
            count := by
              left
              show (s.mgr.make_without_lock (some p)).mgr.m_ptr.m_shared =
                (((c, true) :: s.holders).length : Int)
              rw [h5]
              simp only [List.length_cons, Nat.cast_add, Nat.cast_one, hlen]
              rfl
            active := by
              show (s.mgr.make_without_lock (some p)).mgr.m_ptr.m_ptr.isSome = true ↔
                0 < (s.mgr.make_without_lock (some p)).mgr.m_ptr.m_shared
              rw [h5, h7]
              simp }
  | refresh c =>
    cases hfl : flag_of c s.holders with
    | none => simp [system.step, hfl] at hs
    | some f =>
      simp only [system.step, hfl] at hs
      cases hu : s.mgr.update f with
      | none => simp [hu] at hs
      | some r =>
        obtain ⟨m1, f1⟩ := r
        simp only [hu, Option.some.injEq, Prod.mk.injEq] at hs
        obtain ⟨rfl, -⟩ := hs
        obtain ⟨-, h2, -, h4, h5, -, -⟩ := update_frame s.mgr m1 f f1 hu
        exact {
          hook := by show hook_wires_only m1.m_callback; rw [h2]; exact h.hook
          count := by
            show m1.m_ptr.m_shared = ((set_flag c f1 s.holders).length : Int) ∨
              m1.m_ptr.m_shared = ((set_flag c f1 s.holders).length : Int) + 1
            rw [h4, set_flag_length]
            exact hcount
          active := by
            show m1.m_ptr.m_ptr.isSome = true ↔ 0 < m1.m_ptr.m_shared
            rw [h4, h5]
            exact hactive }
  | release c =>
    cases hfl : flag_of c s.holders with
    | none => simp [system.step, hfl] at hs
    | some f =>
      simp only [system.step, hfl, Option.some.injEq, Prod.mk.injEq] at hs
      obtain ⟨rfl, -⟩ := hs
      obtain ⟨-, h2, -, h4, h5, -, -, -⟩ := release_frame s.mgr f
      have hlen := drop_holder_length c f s.holders hfl
      have hpos : 0 < s.mgr.m_ptr.m_shared := by omega
      have hsome : s.mgr.m_ptr.m_ptr.isSome = true := hactive.mpr hpos
      exact {
        hook := by show hook_wires_only (s.mgr.release f).mgr.m_callback; rw [h2]; exact h.hook
        count := by
          show (s.mgr.release f).mgr.m_ptr.m_shared = ((drop_holder c s.holders).length : Int) ∨
            (s.mgr.release f).mgr.m_ptr.m_shared = ((drop_holder c s.holders).length : Int) + 1
          rw [h4]
          omega
        active := by
          show (s.mgr.release f).mgr.m_ptr.m_ptr.isSome = true ↔
            0 < (s.mgr.release f).mgr.m_ptr.m_shared
          rw [h4, h5]
          by_cases h0 : s.mgr.m_ptr.m_shared - 1 = 0
          · simp [h0]
          · simp only [h0, if_false, hsome, true_iff]
            omega }

theorem keep_warm_counted (s : system T) (obj : Option T) (h : s.counted)
    (hidle : s.holders = []) :
    ({ mgr := (s.mgr.make_and_keep obj).mgr, holders := s.holders } : system T).counted := by
  cases obj with
  | none =>
    have hm : (s.mgr.make_and_keep none).mgr =
        { s.mgr with m_max_shared := s.mgr.m_max_shared + 1 } := by
      simp [resource_manager.make_and_keep, resource_manager.make,
        resource_manager.make_without_lock]
    rw [hm]
    exact { hook := h.hook, count := h.count, active := h.active }
  | some p =>
    obtain ⟨-, -, h3, -, h5, -, h7, -, -⟩ := make_and_keep_slot s.mgr p h.hook
    exact {
      hook := by
        show hook_wires_only (s.mgr.make_and_keep (some p)).mgr.m_callback
        rw [h3]; exact h.hook
      count := by
        right
        show (s.mgr.make_and_keep (some p)).mgr.m_ptr.m_shared = (s.holders.length : Int) + 1
        rw [h5, hidle]
        rfl
      active := by
        show (s.mgr.make_and_keep (some p)).mgr.m_ptr.m_ptr.isSome = true ↔
          0 < (s.mgr.make_and_keep (some p)).mgr.m_ptr.m_shared
        rw [h5, h7]
        simp }

theorem admin_run_counted [Managed T] (cs : List (admin_call T)) (s s1 : system T)
    (outs : List (Option Int)) (h : s.counted) (hs : s.admin_run cs = some (s1, outs))
    (hidle : s.idle_keep_warm cs = true) : s1.counted := by
  induction cs generalizing s outs with
  | nil =>
    simp only [system.admin_run, Option.some.injEq, Prod.mk.injEq] at hs
    obtain ⟨rfl, -⟩ := hs
    exact h
  | cons c cs ih =>
    simp only [system.admin_run] at hs
    cases hc : s.admin_step c with
    | none => simp [hc] at hs
    | some r =>
      obtain ⟨s2, out⟩ := r
      simp only [hc] at hs
      cases hr : s2.admin_run cs with
      | none => simp [hr] at hs
      | some r2 =>
        obtain ⟨s3, outs3⟩ := r2
        simp only [hr, Option.some.injEq, Prod.mk.injEq] at hs
        obtain ⟨rfl, -⟩ := hs
        simp only [system.idle_keep_warm, hc, Bool.and_eq_true] at hidle
        apply ih s2 outs3 _ hr hidle.2
        cases c with
        | handler c => exact step_counted s s2 c out h hc
        | keep_warm obj =>
          simp only [system.admin_step, Option.some.injEq, Prod.mk.injEq] at hc
          obtain ⟨rfl, -⟩ := hc
          exact keep_warm_counted s obj h (List.isEmpty_iff.mp hidle.1)

/-- C15, at a concrete run: on the default manager two handlers acquire, then
`make_and_keep` replaces the slot (`m_shared` back to 1), then both handlers
release: `m_shared` ends at -1 with no object. -/
theorem count_goes_negative_after_keep_warm :
    ((system.start (-1) none).admin_run replaced_under_holders).map
      (fun r => (r.1.mgr.m_ptr.m_shared, r.1.mgr.to_bool)) = some (-1, false) ∧
    ¬ ((0 : Int) ≤ -1) := by
  decide

/-- C15, as the code has it: in every state reached from the configured manager
(the default one included) by `make_or_reuse`, `make_and_keep`,
`update(me_owner)` and `release(me_owner)` calls in which each handler releases
only what it acquired and `make_and_keep` is only called while no handler holds,
`m_shared ≥ 0`, and `m_shared = 0` exactly when there is no object. -/
theorem slot_invariant_with_idle_keep_warm [Managed T] (capacity : Int)
    (callback : Option (owner_ptr T → owner_ptr T)) (hcb : hook_wires_only callback)
    (cs : List (admin_call T)) (s : system T) (outs : List (Option Int))
    (hrun : (system.start capacity callback).admin_run cs = some (s, outs))
    (hidle : (system.start capacity callback).idle_keep_warm cs = true) :
    0 ≤ s.mgr.m_ptr.m_shared ∧ (s.mgr.m_ptr.m_shared = 0 ↔ s.mgr.to_bool = false) := by
  have h := admin_run_counted cs _ s outs (start_counted capacity callback hcb) hrun hidle
  have hcount := h.count
  have hactive := h.active
  refine ⟨by omega, ?_⟩
  constructor
  · intro h0
    cases hb : s.mgr.to_bool
    · rfl
    · have := hactive.mp hb
      omega
  · intro hb
    have hn : ¬ (0 < s.mgr.m_ptr.m_shared) := fun h0 => by
      have := hactive.mpr h0
      rw [hb] at this
      cases this
    omega

theorem slot_invariant_with_idle_keep_warm_witness :
    (system.start (-1) none).admin_run warm_then_visitors =
      some (warm_then_visitors_end, [none, some 2, some 2, some 0, some 0]) ∧
    (system.start (-1) none).idle_keep_warm warm_then_visitors = true ∧
    0 ≤ warm_then_visitors_end.mgr.m_ptr.m_shared ∧
    (warm_then_visitors_end.mgr.m_ptr.m_shared = 0 ↔ warm_then_visitors_end.mgr.to_bool = false) :=
  ⟨rfl, rfl, slot_invariant_with_idle_keep_warm (-1) none hook_wires_only_none warm_then_visitors
    warm_then_visitors_end [none, some 2, some 2, some 0, some 0] (by rfl) (by rfl)⟩

/-! ## Ownership claims -/

/-- One call: a successful `try_own()` comes with one more handler carrying the
flag, and a handler carrying the flag is only lost by a `release` made with the
flag. -/
theorem step_claims [Managed T] (capacity : Int) (s s1 : system T) (c : call T)
    (out : Option Int) (h : s.consistent capacity) (hs : s.step c = some (s1, out)) :
    s.claims [c] + s.owners ≤ s.owner_releases [c] + s1.owners := by
  simp only [system.claims, system.owner_releases, hs, add_zero]
  cases c with
  | acquire c obj =>
    cases hfl : flag_of c s.holders with
    | some f => simp [system.step, hfl] at hs
    | none =>
      simp only [system.step, hfl] at hs
      cases hv : (s.mgr.make_or_reuse false obj).value with
      | none =>
        simp only [hv, Option.some.injEq, Prod.mk.injEq] at hs
        obtain ⟨rfl, -⟩ := hs
        simp [system.owners]
      | some v =>
        simp only [hv, Option.some.injEq, Prod.mk.injEq] at hs
        obtain ⟨rfl, -⟩ := hs
        simp only [system.owners, List.countP_cons, zero_add]
        omega
  | refresh c =>
    cases hfl : flag_of c s.holders with
    | none => simp [system.step, hfl] at hs
    | some f =>
      simp only [system.step, hfl] at hs
      cases hu : s.mgr.update f with
      | none => simp [hu] at hs
      | some r =>
        obtain ⟨m1, f1⟩ := r
        simp only [hu, Option.some.injEq, Prod.mk.injEq] at hs
        obtain ⟨rfl, -⟩ := hs
        obtain ⟨-, -, -, -, -, -, h7⟩ := update_frame s.mgr m1 f f1 hu
        have hcount := set_flag_owners c f f1 s.holders hfl
        simp only [system.owners, zero_add]
        cases ho : s.mgr.m_ptr.m_owned
        · have h0 : ¬ (0 < s.owners) := fun h0 => by
            have := h.owned h0
            rw [ho] at this
            cases this
          have hf : f = false := by
            cases f
            · rfl
            · exact absurd (flag_of_owner_counts c s.holders hfl) h0
          subst hf
          rw [ho] at h7
          subst h7
          simp only [owner_ptr.try_own, ho, Bool.false_eq_true, if_false, if_true, Bool.not_false,
            Bool.or_true, add_zero] at hcount ⊢
          omega
        · rw [ho] at h7
          simp only [Bool.not_true, Bool.or_false] at h7
          subst h7
          simp only [owner_ptr.try_own, ho, if_true, Bool.false_eq_true, if_false, zero_add]
          omega
  | release c =>
    cases hfl : flag_of c s.holders with
    | none => simp [system.step, hfl] at hs
    | some f =>
      simp only [system.step, hfl, Option.some.injEq, Prod.mk.injEq] at hs
      obtain ⟨rfl, -⟩ := hs
      have hown := drop_holder_owners c f s.holders hfl
      simp only [system.owners, zero_add]
      cases f
      · simp only [Bool.false_eq_true, if_false, add_zero] at hown
        rw [hown, hfl]
        simp
      · simp only [if_true] at hown
        rw [hfl, if_pos rfl]
        omega

theorem claims_cons [Managed T] (s s1 : system T) (c : call T) (cs : List (call T))
    (out : Option Int) (hs : s.step c = some (s1, out)) :
    s.claims (c :: cs) = s.claims [c] + s1.claims cs ∧
    s.owner_releases (c :: cs) = s.owner_releases [c] + s1.owner_releases cs := by
  simp only [system.claims, system.owner_releases, hs, add_zero]
  exact ⟨trivial, trivial⟩

theorem run_claims [Managed T] (capacity : Int) (cs : List (call T)) (s s1 : system T)
    (outs : List (Option Int)) (h : s.consistent capacity) (hs : s.run cs = some (s1, outs)) :
    s.claims cs + s.owners ≤ s.owner_releases cs + s1.owners := by
  induction cs generalizing s outs with
  | nil =>
    simp only [system.run, Option.some.injEq, Prod.mk.injEq] at hs
    obtain ⟨rfl, -⟩ := hs
    simp [system.claims, system.owner_releases]
  | cons c cs ih =>
    simp only [system.run] at hs
    cases hc : s.step c with
    | none => simp [hc] at hs
    | some r =>
      obtain ⟨s2, out⟩ := r
      simp only [hc] at hs
      cases hr : s2.run cs with
      | none => simp [hr] at hs
      | some r2 =>
        obtain ⟨s3, outs3⟩ := r2
        simp only [hr, Option.some.injEq, Prod.mk.injEq] at hs
        obtain ⟨rfl, -⟩ := hs
        have h1 := step_claims capacity s s2 c out h hc
        have h2 := ih s2 outs3 (step_consistent capacity s s2 c out h hc) hr
        obtain ⟨h3, h4⟩ := claims_cons s s2 c cs out hc
        omega

/-- C16, at a concrete run: in the generation created by X and joined by Y and
Z, X leaves (its `release` turns `m_owned` from true to false and leaves
`m_shared = 2`), Y refreshes and leaves, Z refreshes.  No `release` returns 1 and
the object is still there, yet `try_own()` returned `true` twice. -/
theorem ownership_claimed_twice_in_one_generation :
    ((system.start (-1) none).run three_holders).map
      (fun r => (r.1.claims double_handover,
        (r.1.run double_handover).map (fun q => (q.2, q.1.mgr.to_bool)),
        r.1.mgr.m_ptr.m_owned,
        (r.1.step (call.release 0)).map (fun q => (q.1.mgr.m_ptr.m_owned, q.1.mgr.m_ptr.m_shared)))) =
    some (2, some ([some 0, none, some 0, none], true), true, some (false, 2)) := by
  rfl

/-- C16, as the code has it: in any run that continues from a reachable state in
which a holder carries `me_owner` (as right after a create), `try_own()` returns
`true` no more often than `release` is called with `me_owner` set; while a holder
carries `me_owner`, `try_own()` returns `false`; and `release` clears `m_owned`
exactly when it is called with `me_owner` set, whether or not holders remain. -/
theorem claims_bounded_by_owner_releases [Managed T] (capacity : Int)
    (callback : Option (owner_ptr T → owner_ptr T)) (hcb : hook_wires_only callback)
    (pre post : List (call T)) (s0 s : system T) (o0 o : List (Option Int))
    (hpre : (system.start capacity callback).run pre = some (s0, o0)) (hown : 0 < s0.owners)
    (hpost : s0.run post = some (s, o)) :
    s0.claims post ≤ s0.owner_releases post ∧
    (0 < s.owners → s.mgr.m_ptr.try_own.2 = false) ∧
    (∀ f, (s.mgr.release f).mgr.m_ptr.m_owned = (s.mgr.m_ptr.m_owned && !f)) := by
  have h0 := run_consistent capacity pre _ s0 o0 (start_consistent capacity callback hcb) hpre
  have h1 := run_consistent capacity post s0 s o h0 hpost
  have h2 := run_claims capacity post s0 s o h0 hpost
  have h3 := h1.one_owner
  refine ⟨by omega, ?_, fun f => (release_frame s.mgr f).2.2.2.2.2.1⟩
  intro hpos
  simp [owner_ptr.try_own, h1.owned hpos]

theorem claims_bounded_by_owner_releases_witness :
    (system.start (-1) none).run three_holders = some (three_holders_end, [some 1, some 2, some 2]) ∧
    0 < three_holders_end.owners ∧
    three_holders_end.run double_handover =
      some (double_handover_end, [some 0, none, some 0, none]) ∧
    three_holders_end.claims double_handover ≤ three_holders_end.owner_releases double_handover ∧
    three_holders_end.claims double_handover = 2 :=
  ⟨rfl, by decide, rfl,
    (claims_bounded_by_owner_releases (-1) none hook_wires_only_none three_holders double_handover
      three_holders_end double_handover_end [some 1, some 2, some 2] [some 0, none, some 0, none]
      (by rfl) (by decide) (by rfl)).1, by decide⟩

/-! ## A fresh generation -/

/-- The slot right after a create through `make_or_reuse`: one holder, owned. -/
theorem created_slot_owned (m : resource_manager T) (me_owner : Bool) (p : T)
    (hempty : m.to_bool = false) (hcb : hook_wires_only m.m_callback) :
    (m.make_or_reuse me_owner (some p)).mgr.m_ptr.m_shared = 1 ∧
    (m.make_or_reuse me_owner (some p)).mgr.m_ptr.m_owned = true ∧
    (m.make_or_reuse me_owner (some p)).me_owner = true ∧
    (m.make_or_reuse me_owner (some p)).mgr.m_ptr.try_own.2 = false := by
  obtain ⟨-, -, -, -, h5, h6, -, -⟩ := make_without_lock_slot m p hcb
  rw [make_or_reuse_empty m me_owner p hempty hcb]
  refine ⟨h5, h6, rfl, ?_⟩
  show (m.make_without_lock (some p)).mgr.m_ptr.try_own.2 = false
  simp [owner_ptr.try_own, h6]

/-- C17, at a concrete create: with capacity 2 the slot right after X's create
has `m_shared = 1` but `m_owned = true`, and `try_own()` returns `false`. -/
theorem fresh_generation_is_already_owned :
    scenarioA2_x.value = some 1 ∧ scenarioA2_x.mgr.m_ptr.m_shared = 1 ∧
    scenarioA2_x.mgr.m_ptr.m_owned = true ∧ scenarioA2_x.mgr.m_ptr.m_owned ≠ false ∧
    scenarioA2_x.mgr.m_ptr.try_own.2 = false := by
  decide

/-- C17, as the code has it: immediately after a successful create through
`make_or_reuse` on a manager without generation, the slot has `m_shared = 1` and
`m_owned = true` (the constructor of `owner_ptr` sets it) and the creator's
`me_owner` is set, so that the first `try_own()` of the new generation returns
`false`.  The same holds for a generation created right after a `release` that
destroyed the previous one. -/
theorem fresh_generation_is_owned_by_creator (m : resource_manager T) (me_owner : Bool) (p : T)
    (hempty : m.to_bool = false) (hcb : hook_wires_only m.m_callback) :
    ((m.make_or_reuse me_owner (some p)).mgr.m_ptr.m_shared = 1 ∧
      (m.make_or_reuse me_owner (some p)).mgr.m_ptr.m_owned = true ∧
      (m.make_or_reuse me_owner (some p)).me_owner = true ∧
      (m.make_or_reuse me_owner (some p)).mgr.m_ptr.try_own.2 = false) ∧
    ∀ (m0 : resource_manager T) (f : Bool), hook_wires_only m0.m_callback →
      (m0.release f).value = 1 →
      ((m0.release f).mgr.make_or_reuse me_owner (some p)).mgr.m_ptr.m_shared = 1 ∧
      ((m0.release f).mgr.make_or_reuse me_owner (some p)).mgr.m_ptr.m_owned = true ∧
      ((m0.release f).mgr.make_or_reuse me_owner (some p)).me_owner = true ∧
      ((m0.release f).mgr.make_or_reuse me_owner (some p)).mgr.m_ptr.try_own.2 = false := by
  refine ⟨created_slot_owned m me_owner p hempty hcb, ?_⟩
  intro m0 f hcb0 hv
  obtain ⟨-, h2, -, -, h5, -, -, h8⟩ := release_frame m0 f
  have h0 : m0.m_ptr.m_shared - 1 = 0 := by
    by_contra h0
    rw [h8] at hv
    simp [h0] at hv
  have hempty0 : (m0.release f).mgr.to_bool = false := by
    simp [resource_manager.to_bool, owner_ptr.to_bool, h5, h0]
  exact created_slot_owned (m0.release f).mgr me_owner p hempty0 (by rw [h2]; exact hcb0)

theorem fresh_generation_is_owned_by_creator_witness :
    scenarioA2_x_release.mgr.to_bool = false ∧
    (scenarioA2_x_release.mgr.make_or_reuse false (some (camera.open 0))).mgr.m_ptr.m_shared = 1 ∧
    (scenarioA2_x_release.mgr.make_or_reuse false (some (camera.open 0))).mgr.m_ptr.m_owned = true ∧
    (scenarioA2_x_release.mgr.make_or_reuse false (some (camera.open 0))).me_owner = true ∧
    (scenarioA2_x_release.mgr.make_or_reuse false
      (some (camera.open 0))).mgr.m_ptr.try_own.2 = false :=
  ⟨by decide, (fresh_generation_is_owned_by_creator scenarioA2_x_release.mgr false (camera.open 0)
    (by decide) hook_wires_only_none).1⟩

/-! ## `make_and_keep` on an active generation -/

/-- C18, at a concrete state: with capacity 4 and the generation held by X and
Y (`m_shared = 2`), `make_or_reuse` under capacity 5 keeps the object and leaves
`m_shared = 3`, whereas `make_and_keep` destroys the object, holds a new one and
leaves `m_shared = 1`. -/
theorem keep_warm_does_not_join :
    (scenarioB 4 1).mgr.m_ptr.m_shared = 2 ∧
    (scenarioB 4 1).mgr.m_ptr.m_ptr = some { index := 0, frames := 0, installed := true } ∧
    (((scenarioB 4 1).mgr.set_max_shared 5).make_or_reuse false
      (some (camera.open 1))).mgr.m_ptr.m_shared = 3 ∧
    (((scenarioB 4 1).mgr.set_max_shared 5).make_or_reuse false (some (camera.open 1))).mgr.m_ptr.m_ptr
      = some { index := 0, frames := 0, installed := true } ∧
    ((scenarioB 4 1).mgr.make_and_keep (some (camera.open 1))).mgr.m_ptr.m_shared = 1 ∧
    ((scenarioB 4 1).mgr.make_and_keep (some (camera.open 1))).mgr.m_ptr.m_shared ≠ 2 + 1 ∧
    ((scenarioB 4 1).mgr.make_and_keep (some (camera.open 1))).mgr.m_ptr.m_ptr
      = some { index := 1, frames := 0, installed := true } ∧
    ((scenarioB 4 1).mgr.make_and_keep (some (camera.open 1))).destroyed
      = some { index := 0, frames := 0, installed := true } := by
  decide

/-- C18, as the code has it: when a generation is active with `m_shared = k`,
`make_and_keep` has the same effect on the slot as `make` (not `make_or_reuse`)
under a capacity raised by one: the held object is destroyed, a new one is
constructed, `m_shared` becomes 1, the slot carries the raised capacity, and the
configured capacity is as before; `make_or_reuse` under the raised capacity would
have kept the object with `m_shared = k + 1`.  On a manager without generation
`make_and_keep` and `make_or_reuse` under the raised capacity leave the same
slot. -/
theorem keep_warm_replaces_active_generation (m : resource_manager T) (p t : T) (k : Int)
    (hcb : hook_wires_only m.m_callback) (hactive : m.m_ptr.m_ptr = some t)
    (hk : m.m_ptr.m_shared = k) :
    (m.make_and_keep (some p)).mgr.m_ptr =
      ((m.set_max_shared (m.m_max_shared + 1)).make (some p)).mgr.m_ptr ∧
    (m.make_and_keep (some p)).destroyed = some t ∧
    (m.make_and_keep (some p)).mgr.m_ptr.m_shared = 1 ∧
    (m.make_and_keep (some p)).mgr.m_ptr.m_max_shared = m.m_max_shared + 1 ∧
    (m.make_and_keep (some p)).mgr.m_ptr.m_ptr.isSome = true ∧
    (m.m_callback = none → (m.make_and_keep (some p)).mgr.m_ptr.m_ptr = some p) ∧
    (m.make_and_keep (some p)).mgr.m_max_shared = m.m_max_shared ∧
    ((m.set_max_shared (m.m_max_shared + 1)).make_or_reuse false (some p)).mgr.m_ptr.m_shared
      = k + 1 ∧
    ((m.set_max_shared (m.m_max_shared + 1)).make_or_reuse false (some p)).mgr.m_ptr.m_ptr
      = some t ∧
    ∀ (m0 : resource_manager T) (f : Bool) (obj : Option T), m0.to_bool = false →
      (m0.make_and_keep obj).mgr.m_ptr =
        ((m0.set_max_shared (m0.m_max_shared + 1)).make_or_reuse f obj).mgr.m_ptr := by
  obtain ⟨-, h2, -, h4, h5, -, h7, h8, h9⟩ := make_and_keep_slot m p hcb
  have hact : (m.set_max_shared (m.m_max_shared + 1)).to_bool = true := by
    simp [resource_manager.to_bool, owner_ptr.to_bool, resource_manager.set_max_shared, hactive]
  refine ⟨?_, by rw [h9, hactive], h5, h4, h7, h8, h2, ?_, ?_, ?_⟩
  · simp [resource_manager.make_and_keep, resource_manager.make,
      resource_manager.make_without_lock, resource_manager.set_max_shared]
  · rw [make_or_reuse_active _ false (some p) hact]
    show m.m_ptr.m_shared + 1 = k + 1
    rw [hk]
  · rw [make_or_reuse_active _ false (some p) hact]
    exact hactive
  · intro m0 f obj hempty
    have he : m0.m_ptr.to_bool = false := hempty
    cases obj <;>
      simp [resource_manager.make_and_keep, resource_manager.make,
        resource_manager.make_without_lock, resource_manager.set_max_shared,
        resource_manager.make_or_reuse, he]

theorem keep_warm_replaces_active_generation_witness :
    (scenarioB 4 1).mgr.m_ptr.m_ptr = some { index := 0, frames := 0, installed := true } ∧
    (scenarioB 4 1).mgr.m_ptr.m_shared = 2 ∧
    ((scenarioB 4 1).mgr.make_and_keep (some (camera.open 1))).destroyed =
      some { index := 0, frames := 0, installed := true } ∧
    ((scenarioB 4 1).mgr.make_and_keep (some (camera.open 1))).mgr.m_ptr.m_shared = 1 :=
  have h := keep_warm_replaces_active_generation (scenarioB 4 1).mgr (camera.open 1)
    { index := 0, frames := 0, installed := true } 2 hook_wires_only_install (by decide)
    (by decide)
  ⟨by decide, by decide, h.2.1, h.2.2.1⟩

/-! ## Bounded fan-out -/

theorem drop_status_length (c : Nat) (st : Int) (hs : List (Nat × Int))
    (h : status_of c hs = some st) : (drop_status c hs).length + 1 = hs.length := by
  induction hs with
  | nil => simp [status_of] at h
  | cons a hs ih =>
    by_cases hc : a.1 = c
    · simp [drop_status, hc]
    · simp only [status_of, hc, if_false] at h
      simp [drop_status, hc, ih h]

theorem drop_status_served (c : Nat) (hs : List (Nat × Int)) :
    (drop_status c hs).countP (fun h => decide (h.2 ≠ 0)) ≤
      hs.countP (fun h => decide (h.2 ≠ 0)) := by
  induction hs with
  | nil => simp [drop_status]
  | cons a hs ih =>
    by_cases hc : a.1 = c
    · simp only [drop_status, hc, if_true, List.countP_cons]
      omega
    · simp only [drop_status, hc, if_false, List.countP_cons]
      omega

/-- A `make_or_reuse` that returns a status other than 0 leaves the count below
the capacity. -/
theorem admitted_below_capacity [Managed T] (capacity : Int) (hcap : 0 < capacity)
    (s s1 : system T) (c : Nat) (obj : Option T) (v : Int) (h : s.consistent capacity)
    (hs : s.step (call.acquire c obj) = some (s1, some v)) (hv : v ≠ 0) :
    s1.mgr.m_ptr.m_shared < capacity := by
  cases hfl : flag_of c s.holders with
  | some f => simp [system.step, hfl] at hs
  | none =>
    simp only [system.step, hfl] at hs
    by_cases ha : s.mgr.to_bool = true
    · rw [make_or_reuse_active s.mgr false obj ha] at hs
      simp only [Option.some.injEq, Prod.mk.injEq] at hs
      obtain ⟨rfl, rfl⟩ := hs
      show s.mgr.m_ptr.m_shared + 1 < capacity
      have hc := h.slot_capacity ha
      by_cases h2 : 0 < s.mgr.m_ptr.m_max_shared ∧
          s.mgr.m_ptr.m_max_shared ≤ s.mgr.m_ptr.m_shared + 1
      · simp [h2] at hv
      · have h3 : ¬ (s.mgr.m_ptr.m_max_shared ≤ s.mgr.m_ptr.m_shared + 1) :=
          fun h3 => h2 ⟨by omega, h3⟩
        omega
    · have ha : s.mgr.to_bool = false := by simpa using ha
      cases obj with
      | none =>
        rw [make_or_reuse_throws s.mgr false ha] at hs
        simp at hs
      | some p =>
        rw [make_or_reuse_empty s.mgr false p ha h.hook] at hs
        simp only [Option.some.injEq, Prod.mk.injEq] at hs
        obtain ⟨rfl, rfl⟩ := hs
        show (s.mgr.make_without_lock (some p)).mgr.m_ptr.m_shared < capacity
        rw [(make_without_lock_slot s.mgr p h.hook).2.2.2.2.1]
        have hc := h.capacity_eq
        by_cases h1 : s.mgr.m_max_shared = 1
        · simp [h1] at hv
        · omega

/-- How a step of a handler changes the number of holders. -/
theorem step_holders [Managed T] (s s1 : system T) (c : call T) (out : Option Int)
    (hs : s.step c = some (s1, out)) :
    (∀ d obj, c = call.acquire d obj →
      (out = none → s1.holders = s.holders) ∧
      (out ≠ none → s1.holders.length = s.holders.length + 1)) ∧
    (∀ d, c = call.refresh d → s1.holders.length = s.holders.length) ∧
    (∀ d, c = call.release d → s1.holders.length + 1 = s.holders.length) := by
  cases c with
  | acquire c obj =>
    refine ⟨?_, fun d hd => (by cases hd), fun d hd => (by cases hd)⟩
    intro d obj2 _
    cases hfl : flag_of c s.holders with
    | some f => simp [system.step, hfl] at hs
    | none =>
      simp only [system.step, hfl] at hs
      cases hv : (s.mgr.make_or_reuse false obj).value with
      | none =>
        simp only [hv, Option.some.injEq, Prod.mk.injEq] at hs
        obtain ⟨rfl, rfl⟩ := hs
        simp
      | some v =>
        simp only [hv, Option.some.injEq, Prod.mk.injEq] at hs
        obtain ⟨rfl, rfl⟩ := hs
        simp
  | refresh c =>
    refine ⟨fun d obj hd => (by cases hd), ?_, fun d hd => (by cases hd)⟩
    intro d _
    cases hfl : flag_of c s.holders with
    | none => simp [system.step, hfl] at hs
    | some f =>
      simp only [system.step, hfl] at hs
      cases hu : s.mgr.update f with
      | none => simp [hu] at hs
      | some r =>
        obtain ⟨m1, f1⟩ := r
        simp only [hu, Option.some.injEq, Prod.mk.injEq] at hs
        obtain ⟨rfl, -⟩ := hs
        exact set_flag_length c f1 s.holders
  | release c =>
    refine ⟨fun d obj hd => (by cases hd), fun d hd => (by cases hd), ?_⟩
    intro d _
    cases hfl : flag_of c s.holders with
    | none => simp [system.step, hfl] at hs
    | some f =>
      simp only [system.step, hfl, Option.some.injEq, Prod.mk.injEq] at hs
      obtain ⟨rfl, -⟩ := hs
      exact drop_holder_length c f s.holders hfl

/-- Leaving through `release()` keeps slot and holders consistent. -/
theorem release_pointer_consistent (capacity : Int) (s : system T) (c : Nat) (f : Bool)
    (h : s.consistent capacity) (hfl : flag_of c s.holders = some f) :
    ({ mgr := s.mgr.release_pointer.1, holders := drop_holder c s.holders } :
      system T).consistent capacity := by
  have hlen := drop_holder_length c f s.holders hfl
  have hown := drop_holder_owners c f s.holders hfl
  have hone := h.one_owner
  simp only [system.owners] at hone
  have hcount := h.count
  have hne : s.holders ≠ [] := by
    intro h0
    rw [h0] at hfl
    simp [flag_of] at hfl
  have hact : s.mgr.m_ptr.m_ptr.isSome = true := h.active.mpr hne
  have h4 : s.mgr.release_pointer.1.m_ptr.m_shared = s.mgr.m_ptr.m_shared - 1 := by
    by_cases h0 : s.mgr.m_ptr.m_shared - 1 = 0 <;>
      simp [resource_manager.release_pointer, owner_ptr.release, h0]
  have h5 : s.mgr.release_pointer.1.m_ptr.m_ptr =
      (if s.mgr.m_ptr.m_shared - 1 = 0 then none else s.mgr.m_ptr.m_ptr) := by
    by_cases h0 : s.mgr.m_ptr.m_shared - 1 = 0 <;>
      simp [resource_manager.release_pointer, owner_ptr.release, h0]
  have h6 : s.mgr.release_pointer.1.m_ptr.m_owned = s.mgr.m_ptr.m_owned := by
    by_cases h0 : s.mgr.m_ptr.m_shared - 1 = 0 <;>
      simp [resource_manager.release_pointer, owner_ptr.release, h0]
  have h3 : s.mgr.release_pointer.1.m_ptr.m_max_shared = s.mgr.m_ptr.m_max_shared := by
    by_cases h0 : s.mgr.m_ptr.m_shared - 1 = 0 <;>
      simp [resource_manager.release_pointer, owner_ptr.release, h0]
  exact {
    capacity_eq := h.capacity_eq
    hook := h.hook
    slot_capacity := fun _ => by
      show s.mgr.release_pointer.1.m_ptr.m_max_shared = _
      rw [h3]
      exact h.slot_capacity hact
    count := by
      show s.mgr.release_pointer.1.m_ptr.m_shared = ((drop_holder c s.holders).length : Int)
      rw [h4, hcount]
      omega
    active := by
      show s.mgr.release_pointer.1.m_ptr.m_ptr.isSome = true ↔ drop_holder c s.holders ≠ []
      rw [h5, ← List.length_pos]
      by_cases h0 : s.mgr.m_ptr.m_shared - 1 = 0
      · simp only [h0, if_true, Option.isSome_none, Bool.false_eq_true, false_iff]
        omega
      · simp only [h0, if_false, hact, true_iff]
        omega
    one_owner := by
      show (drop_holder c s.holders).countP (fun h => h.2) ≤ 1
      omega
    owned := fun h0 => by
      show s.mgr.release_pointer.1.m_ptr.m_owned = true
      have h0 : 0 < (drop_holder c s.holders).countP (fun h => h.2) := h0
      rw [h6]
      apply h.owned
      simp only [system.owners]
      omega }

theorem start_service_consistent (capacity : Int)
    (callback : Option (owner_ptr T → owner_ptr T)) (hcb : hook_wires_only callback) :
    (service.start capacity callback : service T).consistent capacity where
  sys_consistent := start_consistent capacity callback hcb
  statuses_length := rfl

theorem step_service [Managed T] (capacity : Int) (hcap : 0 < capacity) (v v1 : service T)
    (c : handler_call T) (h : v.consistent capacity) (hserved : (v.served : Int) < capacity)
    (hs : v.step c = some v1) : v1.consistent capacity ∧ (v1.served : Int) < capacity := by
  have hsys := h.sys_consistent
  have hlen := h.statuses_length
  cases c with
  | request c obj =>
    simp only [service.step] at hs
    cases hstep : v.sys.step (call.acquire c obj) with
    | none => simp [hstep] at hs
    | some r =>
      obtain ⟨s1, out⟩ := r
      have hs1 := step_consistent capacity v.sys s1 _ out hsys hstep
      have hh := (step_holders v.sys s1 _ out hstep).1 c obj rfl
      cases out with
      | none =>
        simp only [hstep, Option.some.injEq] at hs
        subst hs
        refine ⟨{ sys_consistent := hs1, statuses_length := ?_ }, hserved⟩
        show v.statuses.length = s1.holders.length
        rw [hh.1 rfl, hlen]
      | some st =>
        simp only [hstep, Option.some.injEq] at hs
        subst hs
        have hl : ((c, st) :: v.statuses).length = s1.holders.length := by
          rw [hh.2 (by simp), List.length_cons, hlen]
        refine ⟨{ sys_consistent := hs1, statuses_length := hl }, ?_⟩
        by_cases hst : st = 0
        · subst hst
          have : service.served { sys := s1, statuses := (c, 0) :: v.statuses } = v.served := by
            simp [service.served, List.countP_cons]
          rw [this]
          exact hserved
        · have hlt := admitted_below_capacity capacity hcap v.sys s1 c obj st hsys hstep hst
          have hle : service.served { sys := s1, statuses := (c, st) :: v.statuses } ≤
              ((c, st) :: v.statuses).length := List.countP_le_length _
          have hcount := hs1.count
          rw [hl] at hle
          omega
  | stream c =>
    simp only [service.step] at hs
    cases hst : status_of c v.statuses with
    | none => simp [hst] at hs
    | some st =>
      simp only [hst] at hs
      by_cases h0 : st = 0
      · simp [h0] at hs
      · simp only [h0, if_false] at hs
        cases hstep : v.sys.step (call.refresh c) with
        | none => simp [hstep] at hs
        | some r =>
          obtain ⟨s1, out⟩ := r
          simp only [hstep, Option.some.injEq] at hs
          subst hs
          have hs1 := step_consistent capacity v.sys s1 _ out hsys hstep
          have hh := (step_holders v.sys s1 _ out hstep).2.1 c rfl
          refine ⟨{ sys_consistent := hs1, statuses_length := ?_ }, hserved⟩
          show v.statuses.length = s1.holders.length
          rw [hh, hlen]
  | leave c =>
    simp only [service.step] at hs
    cases hst : status_of c v.statuses with
    | none => simp [hst] at hs
    | some st =>
      simp only [hst] at hs
      have hdl := drop_status_length c st v.statuses hst
      have hds := drop_status_served c v.statuses
      by_cases h0 : st = 0
      · simp only [h0, if_true] at hs
        cases hfl : flag_of c v.sys.holders with
        | none => simp [hfl] at hs
        | some f =>
          simp only [hfl, Option.some.injEq] at hs
          subst hs
          have hdh := drop_holder_length c f v.sys.holders hfl
          refine ⟨{ sys_consistent := release_pointer_consistent capacity v.sys c f hsys hfl,
                    statuses_length := ?_ }, ?_⟩
          · show (drop_status c v.statuses).length = (drop_holder c v.sys.holders).length
            omega
          · show ((drop_status c v.statuses).countP (fun h => decide (h.2 ≠ 0)) : Int) < capacity
            simp only [service.served] at hserved
            omega
      · simp only [h0, if_false] at hs
        cases hstep : v.sys.step (call.release c) with
        | none => simp [hstep] at hs
        | some r =>
          obtain ⟨s1, out⟩ := r
          simp only [hstep, Option.some.injEq] at hs
          subst hs
          have hs1 := step_consistent capacity v.sys s1 _ out hsys hstep
          have hh := (step_holders v.sys s1 _ out hstep).2.2 c rfl
          refine ⟨{ sys_consistent := hs1, statuses_length := ?_ }, ?_⟩
          · show (drop_status c v.statuses).length = s1.holders.length
            omega
          · show ((drop_status c v.statuses).countP (fun h => decide (h.2 ≠ 0)) : Int) < capacity
            simp only [service.served] at hserved
            omega

theorem run_service [Managed T] (capacity : Int) (hcap : 0 < capacity) (cs : List (handler_call T))
    (v v1 : service T) (h : v.consistent capacity) (hserved : (v.served : Int) < capacity)
    (hs : v.run cs = some v1) : v1.consistent capacity ∧ (v1.served : Int) < capacity := by
  induction cs generalizing v with
  | nil =>
    simp only [service.run, Option.some.injEq] at hs
    subst hs
    exact ⟨h, hserved⟩
  | cons c cs ih =>
    simp only [service.run] at hs
    cases hc : v.step c with
    | none => simp [hc] at hs
    | some v2 =>
      simp only [hc] at hs
      obtain ⟨h2, hs2⟩ := step_service capacity hcap v v2 c h hserved hc
      exact ih v2 h2 hs2 hs

/-- C19: for every capacity `C > 0` and every serialised run, from the empty
manager, of `/cam` handlers (each calls `make_or_reuse`; one that is returned 0
only leaves, through `release()`; the others stream and leave through
`release(me_owner)`), the number of handlers that were returned a status other
than 0 and have not left yet is always less than `C`. -/
theorem served_below_capacity [Managed T] (capacity : Int) (hcap : 0 < capacity)
    (callback : Option (owner_ptr T → owner_ptr T)) (hcb : hook_wires_only callback)
    (cs : List (handler_call T)) (v : service T)
    (hrun : (service.start capacity callback).run cs = some v) :
    (v.served : Int) < capacity ∧ (v.served : Int) ≤ capacity - 1 := by
  have h := (run_service capacity hcap cs _ v (start_service_consistent capacity callback hcb)
    (by simpa [service.served, service.start] using hcap) hrun).2
  exact ⟨h, by omega⟩

theorem served_below_capacity_witness :
    (service.start 3 none).run busy_evening = some busy_evening_end ∧
    busy_evening_end.served = 2 ∧ (busy_evening_end.served : Int) < 3 :=
  ⟨rfl, by decide,
    (served_below_capacity 3 (by decide) none hook_wires_only_none busy_evening busy_evening_end
      (by rfl)).1⟩

end gh
